import Mathlib

set_option maxRecDepth 8192

/-!
# Finsulium — verification of the encryption and currency-rebase core

A shallow embedding, in Lean 4, of the client-side encryption layer and the
currency-change workflow of the Finsulium personal-finance tracker, together
with proofs and refutations of the specified properties.

Sources embedded (TypeScript):
* `lib/encryption.ts` — Web Crypto AES-GCM envelope encryption, base64 helpers;
* `lib/services/currency.ts` — `convertTransactionsCurrency`,
  `updateTransactionsCurrencyInDB`, `updateCurrencyWithoutConversion`;
* `lib/services/transactions.ts` — `fetchTransactions`, `createTransaction`,
  `updateTransaction`;
* `lib/store.ts` — the Zustand store, its `partialize` projection and
  `clearCredentials`;
* `components/currency-change-dialog.tsx` — the rate validation in
  `handleConvert`.

Platform primitives the source calls (`window.crypto.subtle` AES-GCM,
`btoa`/`atob`, `TextEncoder`/`TextDecoder`, `JSON.stringify`/`JSON.parse`,
JavaScript number semantics) are not part of the repository; they are
modelled here from their public specifications, as stated in each doc
comment.  JavaScript numbers are IEEE-754 doubles; they are modelled as
exact scaled decimals (every finite double is a decimal), since binary
floating point does not embed exactly.
-/

namespace Finsulium

/-! ## JavaScript numbers, modelled as scaled decimals -/

/-- Modelled from the spec: a JavaScript number as it appears in this code
base.  Finite doubles are modelled exactly as signed scaled decimals
`(-1)^neg * man / 10^exp`; `NaN` and the two infinities are separate
constructors.  (Binary floating point itself does not embed exactly; every
finite double is such a decimal.) -/
inductive JsNum where
  | nan : JsNum
  | infty (neg : Bool) : JsNum
  | dec (neg : Bool) (man : Nat) (exp : Nat) : JsNum
deriving DecidableEq, Repr

/-- The rational value of a finite `JsNum`. -/
def JsNum.toRat : JsNum → ℚ
  | .dec neg man e => (if neg then -1 else 1) * (man : ℚ) / ((10 : ℚ) ^ e)
  | _ => 0

/-- `isNaN x` of JavaScript. -/
def JsNum.isNaNb : JsNum → Bool
  | .nan => true
  | _ => false

/-- `x <= 0` of JavaScript (false on `NaN`). -/
def JsNum.le0 : JsNum → Bool
  | .nan => false
  | .infty neg => neg
  | .dec neg man _ => man = 0 || neg

/-- JavaScript truthiness of a number: `0`, `-0` and `NaN` are falsy. -/
def JsNum.truthy : JsNum → Bool
  | .nan => false
  | .infty _ => true
  | .dec _ man _ => man ≠ 0

/-- Strip trailing zeros from a scaled decimal `(man, exp)`, as
`Number("4.50") = 4.5` identifies decimals with their canonical form. -/
def canonDec : Nat → Nat → Nat × Nat
  | man, 0 => (man, 0)
  | man, e + 1 => if man % 10 = 0 then canonDec (man / 10) e else (man, e + 1)

/-- The `JsNum` whose value is the scaled decimal `(-1)^neg * man / 10^e`
rounded to two decimal places, half away from zero — the value `Number`
reads back from the `toFixed(2)` string — in canonical form. -/
def fix2 (neg : Bool) (man e : Nat) : JsNum :=
  let m2 :=
    if e ≤ 2 then man * 10 ^ (2 - e)
    else man / 10 ^ (e - 2) + (if 10 ^ (e - 2) ≤ man % 10 ^ (e - 2) * 2 then 1 else 0)
  let me := canonDec m2 2
  if me.1 = 0 then .dec false 0 0 else .dec neg me.1 me.2

/-- Modelled from the spec: `Number((a * r).toFixed(2))` of JavaScript,
the amount-rewriting step of `convertTransactionsCurrency`
(`lib/services/currency.ts` line 17), over the scaled-decimal model:
exact product then rounding to two decimal places half away from zero;
`NaN` propagates (`toFixed` gives `"NaN"`), infinities follow the sign
rules (`0 * Infinity` is `NaN`, `toFixed` of an infinity gives
`"Infinity"`). -/
def JsNum.mulFix2 : JsNum → JsNum → JsNum
  | .nan, _ => .nan
  | _, .nan => .nan
  | .infty s, .infty t => .infty (s != t)
  | .infty s, .dec neg man _ => if man = 0 then .nan else .infty (s != neg)
  | .dec neg man _, .infty s => if man = 0 then .nan else .infty (s != neg)
  | .dec n1 m1 e1, .dec n2 m2 e2 => fix2 (n1 != n2) (m1 * m2) (e1 + e2)

/-- Written from the spec's words, to be compared with the code-side
`fix2`: "rounded to 2 decimal places … using standard
round-half-away-from-zero".  For the decimal value
`x = (-1)^neg * man / 10^e`, the integer of hundredths nearest to
`|x| * 100` (`man * 100 / 10^e`, rounded up on a tie, i.e. away from
zero once the sign is reapplied), read back as a canonical `JsNum`. -/
def roundHalfAway2 (neg : Bool) (man e : Nat) : JsNum :=
  let num := man * 100
  let n := num / 10 ^ e + (if 2 * (num % 10 ^ e) < 10 ^ e then 0 else 1)
  let me := canonDec n 2
  if me.1 = 0 then .dec false 0 0 else .dec neg me.1 me.2

/-! ## Records and stored rows

`Transaction` is the in-memory record (`lib/types.ts`); `DbRow` is the row
shape of the `transactions` table (`supabase-schema.sql`): always-clear
non-sensitive columns, nullable clear sensitive columns (`amount`,
`description`, `notes`) and a nullable envelope (`encrypted_data`, `iv`).
Sensitive strings are kept as `List Char` because the encryption layer
reasons about them character by character. -/

structure Category where
  id : String
  name : String
  icon : String
  color : String
  type : String
deriving DecidableEq, Repr

structure Transaction where
  id : String
  amount : JsNum
  type : String
  date : String
  category_id : String
  category : Option Category
  description : Option (List Char)
  mood : Option String
  tags : List String
  notes : Option (List Char)
  created_at : String
  updated_at : String
  user_id : Option String
deriving DecidableEq, Repr

structure DbRow where
  id : String
  type : String
  date : String
  category_id : String
  mood : Option String
  tags : List String
  amount : Option JsNum
  description : Option (List Char)
  notes : Option (List Char)
  encrypted_data : Option (List Char)
  iv : Option (List Char)
  created_at : String
  updated_at : String
deriving DecidableEq, Repr

/-- A partial row sent to `supabase.from('transactions').update(...)` or
`.insert(...)`: exactly the properties the call sites may set; `none` means
the property is absent from the payload (the column is left untouched). -/
structure TxWrite where
  type : Option String := none
  date : Option String := none
  category_id : Option String := none
  mood : Option String := none
  tags : Option (List String) := none
  amount : Option JsNum := none
  description : Option (List Char) := none
  notes : Option (List Char) := none
  encrypted_data : Option (List Char) := none
  iv : Option (List Char) := none
  updated_at : Option String := none
deriving DecidableEq, Repr

/-- Applying an update payload to a stored row: present properties
overwrite the column, absent ones leave it unchanged. -/
def applyWrite (r : DbRow) (w : TxWrite) : DbRow :=
  { r with
    type := w.type.getD r.type
    date := w.date.getD r.date
    category_id := w.category_id.getD r.category_id
    mood := match w.mood with | some m => some m | none => r.mood
    tags := w.tags.getD r.tags
    amount := match w.amount with | some a => some a | none => r.amount
    description := match w.description with | some d => some d | none => r.description
    notes := match w.notes with | some n => some n | none => r.notes
    encrypted_data := match w.encrypted_data with | some e => some e | none => r.encrypted_data
    iv := match w.iv with | some i => some i | none => r.iv
    updated_at := w.updated_at.getD r.updated_at }

/-- One persistence call against the remote store, as issued by the
embedded operations (the trace of `supabase.from(...)...` calls). -/
inductive DbOp where
  | updateTransactionRow (id : String) (w : TxWrite) : DbOp
  | insertTransactionRow (w : TxWrite) : DbOp
  | updateUserSettings (id : Option String) (default_currency : String) (now : String) : DbOp
deriving DecidableEq, Repr

/-! ## Base64 (`btoa`/`atob` and the helpers of `lib/encryption.ts`)

`arrayBufferToBase64` builds a latin-1 string from the bytes with
`String.fromCharCode` and calls `btoa`; `base64ToArrayBuffer` calls `atob`
and reads the char codes back.  Over byte lists those two round trips are
the identity, so the pair is modelled as base64 itself, from the WHATWG
definition of `btoa`/`atob` (4 alphabet characters per 3 bytes, `=`
padding; `atob` rejects malformed input). -/

def b64Alphabet : List Char :=
  ("ABCDEFGHIJKLMNOPQRSTUVWXYZabcdefghijklmnopqrstuvwxyz0123456789+/".toList)

def encB64 (n : Nat) : Char := b64Alphabet.getD n 'A'

def decB64 (c : Char) : Option Nat :=
  let i := b64Alphabet.indexOf c
  if i < 64 then some i else none

/-- Modelled from the spec: `btoa` over the byte list (WHATWG base64
encode). -/
def btoaB : List Nat → List Char
  | [] => []
  | [a] => [encB64 (a / 4), encB64 (a % 4 * 16), '=', '=']
  | [a, b] => [encB64 (a / 4), encB64 (a % 4 * 16 + b / 16), encB64 (b % 16 * 4), '=']
  | a :: b :: c :: rest =>
      encB64 (a / 4) :: encB64 (a % 4 * 16 + b / 16) ::
        encB64 (b % 16 * 4 + c / 64) :: encB64 (c % 64) :: btoaB rest

/-- Modelled from the spec: `atob` over the byte list (WHATWG base64
decode; `none` models the `InvalidCharacterError` it throws).  `=`
padding is only meaningful in the final quadruple. -/
def atobB : List Char → Option (List Nat)
  | [] => some []
  | c1 :: c2 :: c3 :: c4 :: rest =>
      if rest.isEmpty && (c3 == '=') && (c4 == '=') then do
        let a ← decB64 c1
        let b ← decB64 c2
        pure [a * 4 + b / 16]
      else if rest.isEmpty && (c4 == '=') then do
        let a ← decB64 c1
        let b ← decB64 c2
        let c ← decB64 c3
        pure [a * 4 + b / 16, b % 16 * 16 + c / 4]
      else do
        let a ← decB64 c1
        let b ← decB64 c2
        let c ← decB64 c3
        let d ← decB64 c4
        let tail ← atobB rest
        pure ((a * 4 + b / 16) :: (b % 16 * 16 + c / 4) :: (c % 4 * 64 + d) :: tail)
  | _ => none

/-- `arrayBufferToBase64` (`lib/encryption.ts` lines 180–187). -/
def arrayBufferToBase64 (buffer : List Nat) : List Char := btoaB buffer

/-- `base64ToArrayBuffer` (`lib/encryption.ts` lines 189–196). -/
def base64ToArrayBuffer (base64 : List Char) : Option (List Nat) := atobB base64

/-! ## UTF-8 (`TextEncoder` / `TextDecoder`)

Modelled from the spec: the UTF-8 encoding of a sequence of Unicode scalar
values (Lean's `Char`).  `TextDecoder` in its default mode replaces
invalid sequences instead of failing; the model returns `none` there,
which only matters off the round-trip path. -/

def encodeUtf8Char (c : Char) : List Nat :=
  let n := c.toNat
  if n < 0x80 then [n]
  else if n < 0x800 then [0xC0 + n / 64, 0x80 + n % 64]
  else if n < 0x10000 then [0xE0 + n / 4096, 0x80 + n / 64 % 64, 0x80 + n % 64]
  else [0xF0 + n / 262144, 0x80 + n / 4096 % 64, 0x80 + n / 64 % 64, 0x80 + n % 64]

def encodeUtf8 (s : List Char) : List Nat := s.flatMap encodeUtf8Char

/-- Decode one scalar value from the front of the byte stream, rejecting
truncated, overlong and surrogate sequences. -/
def decodeUtf8Char : List Nat → Option (Char × List Nat)
  | [] => none
  | b :: rest =>
      if b < 0x80 then some (Char.ofNat b, rest)
      else if b < 0xC0 then none
      else if b < 0xE0 then
        match rest with
        | b1 :: rest2 =>
            if 0x80 ≤ b1 && b1 < 0xC0 then
              let n := (b - 0xC0) * 64 + (b1 - 0x80)
              if 0x80 ≤ n then some (Char.ofNat n, rest2) else none
            else none
        | [] => none
      else if b < 0xF0 then
        match rest with
        | b1 :: b2 :: rest2 =>
            if (0x80 ≤ b1 && b1 < 0xC0) && (0x80 ≤ b2 && b2 < 0xC0) then
              let n := (b - 0xE0) * 4096 + (b1 - 0x80) * 64 + (b2 - 0x80)
              if 0x800 ≤ n && !(0xD800 ≤ n && n < 0xE000) then
                some (Char.ofNat n, rest2)
              else none
            else none
        | _ => none
      else if b < 0xF8 then
        match rest with
        | b1 :: b2 :: b3 :: rest2 =>
            if ((0x80 ≤ b1 && b1 < 0xC0) && (0x80 ≤ b2 && b2 < 0xC0)) &&
                (0x80 ≤ b3 && b3 < 0xC0) then
              let n := (b - 0xF0) * 262144 + (b1 - 0x80) * 4096 +
                (b2 - 0x80) * 64 + (b3 - 0x80)
              if 0x10000 ≤ n && n < 0x110000 then
                some (Char.ofNat n, rest2)
              else none
            else none
        | _ => none
      else none

/-- A successfully decoded scalar consumes at least one byte. -/
theorem decodeUtf8Char_shrinks :
    ∀ (bs : List Nat) (p : Char × List Nat), decodeUtf8Char bs = some p →
      p.2.length < bs.length := by
  intro bs p h
  match bs with
  | [] => simp [decodeUtf8Char] at h
  | b :: rest =>
      simp only [decodeUtf8Char.eq_def] at h
      split at h
      · cases h; simp only [List.length_cons]; omega
      · split at h
        · cases h
        · split at h
          · split at h
            · split at h
              · split at h
                · cases h; simp only [List.length_cons]; omega
                · cases h
              · cases h
            · cases h
          · split at h
            · split at h
              · split at h
                · split at h
                  · cases h; simp only [List.length_cons]; omega
                  · cases h
                · cases h
              · cases h
            · split at h
              · split at h
                · split at h
                  · split at h
                    · cases h; simp only [List.length_cons]; omega
                    · cases h
                  · cases h
                · cases h
              · cases h

def decodeUtf8 (bs : List Nat) : Option (List Char) :=
  match bs with
  | [] => some []
  | b :: rest =>
      match h : decodeUtf8Char (b :: rest) with
      | none => none
      | some p => (decodeUtf8 p.2).map (p.1 :: ·)
termination_by bs.length
decreasing_by
  have := decodeUtf8Char_shrinks _ _ h
  simpa using this

/-! ## The JSON codec for the sensitive payload

`encryptTransaction` serializes `{ amount, description?, notes? }` with
`JSON.stringify` and `decryptTransaction` reads it back with `JSON.parse`.
Modelled from the spec: `JSON.stringify` emits the keys in insertion order
and omits `undefined` properties; strings are quoted with the standard
two-character escapes plus `\u00XX` for other control characters; finite
numbers print as their (canonical) decimal expansion, `NaN` and the
infinities print as `null`.  The reader is `JSON.parse` restricted to the
grammar this codec emits. -/

/-- The sensitive subset of a transaction, as passed to
`encryptTransaction` (`lib/encryption.ts` lines 139–144). -/
structure TxPayload where
  amount : JsNum
  description : Option (List Char)
  notes : Option (List Char)
deriving DecidableEq, Repr

/-- A number survives `JSON.stringify`/`JSON.parse` unchanged iff it is
finite and not `-0` (JavaScript prints `-0` as `"0"` and the infinities
and `NaN` as `null`). -/
def JsNum.jsonSafe : JsNum → Bool
  | .nan => false
  | .infty _ => false
  | .dec neg man _ => !(neg && man == 0)

def digitChar (d : Nat) : Char := Char.ofNat (48 + d)

def natDigits (n : Nat) : List Char :=
  if n < 10 then [digitChar n] else natDigits (n / 10) ++ [digitChar (n % 10)]

def isDigitCh (c : Char) : Bool := 48 ≤ c.toNat && c.toNat ≤ 57

def digitsVal (ds : List Char) : Nat := ds.foldl (fun a c => a * 10 + (c.toNat - 48)) 0

/-- The digits of `man / 10^e` for `e ≠ 0`: the digit string of `man`,
zero-padded on the left to at least `e + 1` digits, with the decimal
point inserted before the last `e` of them. -/
def printDecBody (man e : Nat) : List Char :=
  let s := natDigits man
  let t := List.replicate (e + 1 - s.length) '0' ++ s
  t.take (t.length - e) ++ '.' :: t.drop (t.length - e)

/-- `String(x)` for the numbers this code base stores: sign, integral
digits, and — when the scaled decimal has a fractional part — a decimal
point before the last `exp` digits. -/
def printJsNumber : JsNum → List Char
  | .nan => ('n' :: 'u' :: 'l' :: 'l' :: [])
  | .infty _ => ('n' :: 'u' :: 'l' :: 'l' :: [])
  | .dec neg man e =>
      (if neg && man ≠ 0 then ['-'] else []) ++
        (if e = 0 then natDigits man else printDecBody man e)

/-- Split off the longest digit prefix. -/
def spanDigits : List Char → List Char × List Char
  | [] => ([], [])
  | c :: rest =>
      if isDigitCh c then
        let p := spanDigits rest
        (c :: p.1, p.2)
      else ([], c :: rest)

/-- The unsigned part of a JSON number literal: digits with an optional
fraction; `neg` is the already-consumed sign. -/
def parseUnsigned (neg : Bool) (s : List Char) : Option (JsNum × List Char) :=
  let ip := spanDigits s
  if ip.1 = [] then none
  else
    match ip.2 with
    | c :: r2 =>
        if c = '.' then
          let fp := spanDigits r2
          if fp.1 = [] then none
          else some (JsNum.dec neg (digitsVal (ip.1 ++ fp.1)) fp.1.length, fp.2)
        else some (JsNum.dec neg (digitsVal ip.1) 0, ip.2)
    | [] => some (JsNum.dec neg (digitsVal ip.1) 0, ip.2)

/-- `JSON.parse` on a number literal: optional sign, digits, optional
fraction; returns the scaled decimal and the unread remainder. -/
def parseJsNumber (s : List Char) : Option (JsNum × List Char) :=
  match s with
  | c :: r => if c = '-' then parseUnsigned true r else parseUnsigned false s
  | [] => parseUnsigned false s

def hexDigitCh (d : Nat) : Char := Char.ofNat (if d < 10 then 48 + d else 87 + d)

/-- One character of `QuoteJSONString`: `"` and `\` and the five named
control escapes as two characters, other control characters as `\u00XX`,
everything else unescaped. -/
def escChar (c : Char) : List Char :=
  let n := c.toNat
  if n = 34 then ['\\', '"']
  else if n = 92 then ['\\', '\\']
  else if n = 8 then ['\\', 'b']
  else if n = 9 then ['\\', 't']
  else if n = 10 then ['\\', 'n']
  else if n = 12 then ['\\', 'f']
  else if n = 13 then ['\\', 'r']
  else if n < 32 then ['\\', 'u', '0', '0', hexDigitCh (n / 16), hexDigitCh (n % 16)]
  else [c]

def printJsString (s : List Char) : List Char := '"' :: s.flatMap escChar ++ ['"']

def hexVal (c : Char) : Option Nat :=
  let n := c.toNat
  if 48 ≤ n && n ≤ 57 then some (n - 48)
  else if 97 ≤ n && n ≤ 102 then some (n - 87)
  else if 65 ≤ n && n ≤ 70 then some (n - 55)
  else none

/-- The named single-character escapes `JSON.parse` accepts. -/
def unescapeChar (e : Char) : Option Char :=
  if e = '"' then some '"'
  else if e = '\\' then some '\\'
  else if e = '/' then some '/'
  else if e = 'b' then some (Char.ofNat 8)
  else if e = 't' then some (Char.ofNat 9)
  else if e = 'n' then some (Char.ofNat 10)
  else if e = 'f' then some (Char.ofNat 12)
  else if e = 'r' then some (Char.ofNat 13)
  else none

/-- One token inside a JSON string literal: the closing quote, or one
(possibly escape-encoded) character. -/
inductive StrTok where
  | closed (rest : List Char) : StrTok
  | chr (c : Char) (rest : List Char) : StrTok
deriving DecidableEq, Repr

/-- The value of four hex digits. -/
def hex4 (h1 h2 h3 h4 : Char) : Option Nat := do
  let a ← hexVal h1
  let b ← hexVal h2
  let hc ← hexVal h3
  let hd ← hexVal h4
  pure (((a * 16 + b) * 16 + hc) * 16 + hd)

/-- Read one token of a JSON string literal: the closing quote, a
single-character escape, a `\uXXXX` escape (surrogate halves rejected —
the model's strings are scalar sequences), or a raw character. -/
def parseJsStringStep : List Char → Option StrTok
  | [] => none
  | c :: rest =>
      if c = '"' then some (.closed rest)
      else if c = '\\' then
        match rest with
        | [] => none
        | e :: rest2 =>
            if e = 'u' then
              match rest2 with
              | h1 :: h2 :: h3 :: h4 :: rest3 =>
                  match hex4 h1 h2 h3 h4 with
                  | none => none
                  | some n =>
                      if 0xD800 ≤ n && n < 0xE000 then none
                      else some (.chr (Char.ofNat n) rest3)
              | _ => none
            else
              match unescapeChar e with
              | none => none
              | some c2 => some (.chr c2 rest2)
      else some (.chr c rest)

/-- Reading one string token consumes at least one character. -/
theorem parseJsStringStep_shrinks :
    ∀ (s : List Char) (tok : StrTok), parseJsStringStep s = some tok →
      (match tok with
        | .closed rest => rest.length < s.length
        | .chr _ rest => rest.length < s.length) := by
  intro s tok h
  match s with
  | [] => simp [parseJsStringStep] at h
  | c :: rest =>
      simp only [parseJsStringStep.eq_def] at h
      split at h
      · cases h; simp
      · split at h
        · split at h
          · cases h
          · split at h
            · split at h
              · split at h
                · cases h
                · split at h
                  · cases h
                  · cases h; simp only [List.length_cons]; omega
              · cases h
            · split at h
              · cases h
              · cases h
                simp only [List.length_cons]
                omega
        · cases h; simp

/-- `JSON.parse` inside a string literal, after the opening quote: read
tokens until the closing quote. -/
def parseJsStringBody (s : List Char) : Option (List Char × List Char) :=
  match h : parseJsStringStep s with
  | none => none
  | some (.closed rest) => some ([], rest)
  | some (.chr c rest) => (parseJsStringBody rest).map fun p => (c :: p.1, p.2)
termination_by s.length
decreasing_by
  have := parseJsStringStep_shrinks s _ h
  simpa using this

def parseJsString (s : List Char) : Option (List Char × List Char) :=
  match s with
  | c :: rest => if c = '"' then parseJsStringBody rest else none
  | [] => none

/-- `JSON.stringify({ amount, description?, notes? })`: keys in insertion
order, `undefined` properties omitted. -/
def printPayload (p : TxPayload) : List Char :=
  ("\x7b\"amount\":".toList) ++ printJsNumber p.amount ++
    (match p.description with
     | some d => (",\"description\":".toList) ++ printJsString d
     | none => []) ++
    (match p.notes with
     | some nt => (",\"notes\":".toList) ++ printJsString nt
     | none => []) ++
    ['}']

/-- Consume a literal prefix. -/
def expectLit : List Char → List Char → Option (List Char)
  | [], s => some s
  | c :: cs, d :: s => if c = d then expectLit cs s else none
  | _ :: _, [] => none

def expectEnd : List Char → Option Unit
  | ['}'] => some ()
  | _ => none

/-- `JSON.parse` restricted to the payload grammar the printer emits. -/
def parsePayloadJson (s : List Char) : Option TxPayload := do
  let s1 ← expectLit ("\x7b\"amount\":".toList) s
  let an ← parseJsNumber s1
  match expectLit (",\"description\":".toList) an.2 with
  | some sD => do
      let dp ← parseJsString sD
      match expectLit (",\"notes\":".toList) dp.2 with
      | some sN => do
          let np ← parseJsString sN
          let _ ← expectEnd np.2
          pure ⟨an.1, some dp.1, some np.1⟩
      | none => do
          let _ ← expectEnd dp.2
          pure ⟨an.1, some dp.1, none⟩
  | none =>
      match expectLit (",\"notes\":".toList) an.2 with
      | some sN => do
          let np ← parseJsString sN
          let _ ← expectEnd np.2
          pure ⟨an.1, none, some np.1⟩
      | none => do
          let _ ← expectEnd an.2
          pure ⟨an.1, none, none⟩

/-! ## AES-256 (FIPS 197), forward direction

Modelled from the spec: the `window.crypto.subtle` block cipher.  Bytes
are `Nat`s below 256; the state is the 16-byte block in column-major
order.  GCM only ever runs the cipher forward, so no inverse cipher is
needed.  The S-box is computed from its definition (multiplicative
inverse in GF(2⁸) followed by the affine map) rather than tabulated. -/

/-- Multiplication in GF(2⁸) modulo x⁸+x⁴+x³+x+1 (peasant algorithm,
eight steps). -/
def gfMulAux : Nat → Nat → Nat → Nat → Nat
  | 0, _, _, acc => acc
  | k + 1, a, b, acc =>
      let acc1 := if b % 2 = 1 then acc ^^^ a else acc
      let a1 := (2 * a) % 256 ^^^ (if 128 ≤ a then 0x1b else 0)
      gfMulAux k a1 (b / 2) acc1

def gfMul (a b : Nat) : Nat := gfMulAux 8 a b 0

def gfPow (a : Nat) : Nat → Nat
  | 0 => 1
  | n + 1 => gfMul a (gfPow a n)

/-- Multiplicative inverse in GF(2⁸) as a²⁵⁴ (0 maps to 0). -/
def gfInv (a : Nat) : Nat := gfPow a 254

/-- Rotate an 8-bit value left by `n`. -/
def rotl8 (x n : Nat) : Nat := x * 2 ^ n % 256 ^^^ x / 2 ^ (8 - n)

/-- The AES S-box: affine map over the multiplicative inverse. -/
def subByte (b : Nat) : Nat :=
  let i := gfInv b
  i ^^^ rotl8 i 1 ^^^ rotl8 i 2 ^^^ rotl8 i 3 ^^^ rotl8 i 4 ^^^ 0x63

def subBytes (s : List Nat) : List Nat := s.map subByte

/-- ShiftRows on the column-major flat state: row r rotates left by r. -/
def shiftRows (s : List Nat) : List Nat :=
  [0, 5, 10, 15, 4, 9, 14, 3, 8, 13, 2, 7, 12, 1, 6, 11].map fun i => s.getD i 0

def mixColumn (a0 a1 a2 a3 : Nat) : List Nat :=
  [gfMul 2 a0 ^^^ gfMul 3 a1 ^^^ a2 ^^^ a3,
   a0 ^^^ gfMul 2 a1 ^^^ gfMul 3 a2 ^^^ a3,
   a0 ^^^ a1 ^^^ gfMul 2 a2 ^^^ gfMul 3 a3,
   gfMul 3 a0 ^^^ a1 ^^^ a2 ^^^ gfMul 2 a3]

def mixColumns (s : List Nat) : List Nat :=
  mixColumn (s.getD 0 0) (s.getD 1 0) (s.getD 2 0) (s.getD 3 0) ++
    mixColumn (s.getD 4 0) (s.getD 5 0) (s.getD 6 0) (s.getD 7 0) ++
    mixColumn (s.getD 8 0) (s.getD 9 0) (s.getD 10 0) (s.getD 11 0) ++
    mixColumn (s.getD 12 0) (s.getD 13 0) (s.getD 14 0) (s.getD 15 0)

def addRoundKey (s rk : List Nat) : List Nat := List.zipWith (· ^^^ ·) s rk

def rotWord : List Nat → List Nat
  | [] => []
  | a :: rest => rest ++ [a]

def subWord (w : List Nat) : List Nat := w.map subByte

def rconByte (i : Nat) : Nat := [0x01, 0x02, 0x04, 0x08, 0x10, 0x20, 0x40].getD (i - 1) 0

def xorWord (a b : List Nat) : List Nat := List.zipWith (· ^^^ ·) a b

/-- One step of the AES-256 key expansion: append word `i = ws.length` to
the expanded-key prefix `ws`. -/
def nextKeyWord (key : List Nat) (ws : List (List Nat)) : List (List Nat) :=
  let i := ws.length
  if i < 8 then ws ++ [(key.drop (4 * i)).take 4]
  else
    let temp := ws.getD (i - 1) []
    let temp1 :=
      if i % 8 = 0 then xorWord (subWord (rotWord temp)) [rconByte (i / 8), 0, 0, 0]
      else if i % 8 = 4 then subWord temp
      else temp
    ws ++ [xorWord (ws.getD (i - 8) []) temp1]

/-- The first `n` words of the AES-256 expanded key. -/
def keyWords (key : List Nat) : Nat → List (List Nat)
  | 0 => []
  | n + 1 => nextKeyWord key (keyWords key n)

/-- Round key `r`: words `4r .. 4r+3` of the expanded key, flattened. -/
def roundKey (key : List Nat) (r : Nat) : List Nat :=
  let ws := keyWords key 60
  ws.getD (4 * r) [] ++ ws.getD (4 * r + 1) [] ++ ws.getD (4 * r + 2) [] ++
    ws.getD (4 * r + 3) []

def aesRound (rk s : List Nat) : List Nat := addRoundKey (mixColumns (shiftRows (subBytes s))) rk

def aesFinalRound (rk s : List Nat) : List Nat := addRoundKey (shiftRows (subBytes s)) rk

/-- The AES-256 cipher: AddRoundKey, 13 full rounds, one final round. -/
def aesBlock (key block : List Nat) : List Nat :=
  let s0 := addRoundKey block (roundKey key 0)
  let s := (List.range 13).foldl (fun s r => aesRound (roundKey key (r + 1)) s) s0
  aesFinalRound (roundKey key 14) s

/-! ## GCM (NIST SP 800-38D)

Modelled from the spec: AES-GCM as `window.crypto.subtle` exposes it with
a 12-byte IV, no additional authenticated data and a 128-bit tag: CTR over
counters `inc32ⁱ(J0)`, `GHASH` under `H = CIPH_K(0¹²⁸)`, the tag appended
to the ciphertext.  128-bit blocks are big-endian `Nat`s. -/

def bytesToNat (bs : List Nat) : Nat := bs.foldl (fun acc b => acc * 256 + b) 0

def natToBytesBE (len n : Nat) : List Nat :=
  (List.range len).map fun i => n / 2 ^ (8 * (len - 1 - i)) % 256

/-- Multiplication in GF(2¹²⁸) in GCM's bit order (block bit 0 is the
most significant bit of the big-endian block value). -/
def gcmMulAux : Nat → Nat → Nat → Nat → Nat
  | 0, _, _, z => z
  | k + 1, x, v, z =>
      let z1 := if x / 2 ^ 127 % 2 = 1 then z ^^^ v else z
      let v1 := if v % 2 = 1 then v / 2 ^^^ 0xE1 * 2 ^ 120 else v / 2
      gcmMulAux k (x * 2 % 2 ^ 128) v1 z1

def gcmMul (x y : Nat) : Nat := gcmMulAux 128 x y 0

def ghash (h : Nat) (blocks : List Nat) : Nat :=
  blocks.foldl (fun y b => gcmMul (y ^^^ b) h) 0

/-- Split a byte string into 128-bit blocks, zero-padding the last. -/
def toBlocks (bs : List Nat) : List Nat :=
  if h : bs.isEmpty then []
  else bytesToNat (bs.take 16 ++ List.replicate (16 - (bs.take 16).length) 0) ::
    toBlocks (bs.drop 16)
termination_by bs.length
decreasing_by
  simp only [List.length_drop]
  have hne : bs ≠ [] := by simpa [List.isEmpty_iff] using h
  have : 0 < bs.length := List.length_pos.mpr hne
  omega

def inc32 (b : List Nat) : List Nat :=
  b.take 12 ++ natToBytesBE 4 ((bytesToNat (b.drop 12) + 1) % 2 ^ 32)

/-- The CTR keystream: blocks `CIPH_K(inc32ⁱ(J0))` for `i = 1..n`. -/
def keystream (key j0 : List Nat) (n : Nat) : List Nat :=
  (List.range n).flatMap fun i => aesBlock key (inc32^[i + 1] j0)

def gcmCtr (key j0 data : List Nat) : List Nat :=
  List.zipWith (· ^^^ ·) data (keystream key j0 ((data.length + 15) / 16))

/-- The GHASH input for ciphertext `c` with no AAD: the padded blocks of
`c` followed by the length block. -/
def ghashBlocks (c : List Nat) : List Nat := toBlocks c ++ [8 * c.length]

def gcmTag (key j0 c : List Nat) : List Nat :=
  let h := bytesToNat (aesBlock key (List.replicate 16 0))
  natToBytesBE 16 (ghash h (ghashBlocks c) ^^^ bytesToNat (aesBlock key j0))

/-- AES-GCM encryption as WebCrypto returns it: ciphertext with the
16-byte tag appended. -/
def gcmEncrypt (key iv pt : List Nat) : List Nat :=
  let j0 := iv ++ [0, 0, 0, 1]
  let c := gcmCtr key j0 pt
  c ++ gcmTag key j0 c

/-- AES-GCM decryption: reject (`OperationError`) unless the recomputed
tag matches, else CTR-decrypt. -/
def gcmDecrypt (key iv ct : List Nat) : Option (List Nat) :=
  if ct.length < 16 then none
  else
    let j0 := iv ++ [0, 0, 0, 1]
    let c := ct.take (ct.length - 16)
    let t := ct.drop (ct.length - 16)
    if gcmTag key j0 c = t then some (gcmCtr key j0 c) else none

/-! ## The envelope (`lib/encryption.ts`) -/

/-- The in-memory key handle (`CryptoKey`): the raw 256-bit key bytes plus
whether the handle was created extractable. -/
structure CryptoKeyRef where
  keyBytes : List Nat
  extractable : Bool
deriving DecidableEq, Repr

/-- The `{ encrypted_data, iv }` pair `encrypt` returns: both fields
base64 text. -/
structure EncryptedEnvelope where
  encrypted_data : List Char
  iv : List Char
deriving DecidableEq, Repr

/-- `encrypt` (`lib/encryption.ts` lines 90–110): serialize to UTF-8
JSON, AES-GCM under the fresh 12-byte IV (injected here as `ivBytes`),
base64-encode ciphertext and IV separately. -/
def encrypt (data : TxPayload) (key : CryptoKeyRef) (ivBytes : List Nat) :
    EncryptedEnvelope :=
  let encodedData := encodeUtf8 (printPayload data)
  let encryptedBuffer := gcmEncrypt key.keyBytes ivBytes encodedData
  { encrypted_data := arrayBufferToBase64 encryptedBuffer
    iv := arrayBufferToBase64 ivBytes }

/-- `decrypt` (`lib/encryption.ts` lines 115–134): base64-decode both
fields, authenticated decryption, UTF-8 decode, `JSON.parse`.  `none` is
the rejected promise (bad base64, failed authentication, or unparseable
plaintext). -/
def decrypt (encryptedData iv : List Char) (key : CryptoKeyRef) : Option TxPayload := do
  let encryptedBuffer ← base64ToArrayBuffer encryptedData
  let ivBuffer ← base64ToArrayBuffer iv
  let decryptedBuffer ← gcmDecrypt key.keyBytes ivBuffer encryptedBuffer
  let decryptedText ← decodeUtf8 decryptedBuffer
  parsePayloadJson decryptedText

/-- `encryptTransaction` (`lib/encryption.ts` lines 139–144). -/
def encryptTransaction (transaction : TxPayload) (key : CryptoKeyRef)
    (ivBytes : List Nat) : EncryptedEnvelope :=
  encrypt transaction key ivBytes

/-- `decryptTransaction` (`lib/encryption.ts` lines 149–155). -/
def decryptTransaction (encrypted_data iv : List Char) (key : CryptoKeyRef) :
    Option TxPayload :=
  decrypt encrypted_data iv key

/-! ## The Zustand store (`lib/store.ts`) -/

structure SupabaseCredentials where
  url : String
  anonKey : String
deriving DecidableEq, Repr

structure EncryptionConfig where
  enabled : Bool
  type : String
deriving DecidableEq, Repr

/-- `user_settings` row held in the store; the currency service only reads
`settings?.id`. -/
structure UserSettings where
  id : String
  user_id : String
  currency : String
deriving DecidableEq, Repr

structure Tag where
  id : String
  name : String
deriving DecidableEq, Repr

structure Goal where
  id : String
  name : String
  target_amount : JsNum
  current_amount : JsNum
deriving DecidableEq, Repr

/-- `AppState` of `lib/store.ts`: credentials and encryption state, the
cached data, and UI state. -/
structure AppState where
  credentials : Option SupabaseCredentials
  encryptionConfig : Option EncryptionConfig
  isOnboarded : Bool
  encryptionKey : Option CryptoKeyRef
  salt : Option String
  transactions : List Transaction
  categories : List Category
  tags : List Tag
  goals : List Goal
  settings : Option UserSettings
  currency : String
  isLoading : Bool
  error : Option String
deriving DecidableEq, Repr

/-- The projection of the store persisted to `localStorage`
(`partialize` in `lib/store.ts` lines 149–157): credentials, encryption
config, currency, onboarding flag and salt — the comment in the source
notes that `encryptionKey` is NOT persisted. -/
structure PersistedState where
  credentials : Option SupabaseCredentials
  encryptionConfig : Option EncryptionConfig
  currency : String
  isOnboarded : Bool
  salt : Option String
deriving DecidableEq, Repr

/-- `partialize` (`lib/store.ts`): the fields written to durable local
storage. -/
def partialize (s : AppState) : PersistedState :=
  { credentials := s.credentials
    encryptionConfig := s.encryptionConfig
    currency := s.currency
    isOnboarded := s.isOnboarded
    salt := s.salt }

/-- Store action `setEncryptionKey`. -/
def setEncryptionKey (s : AppState) (key : Option CryptoKeyRef) : AppState :=
  { s with encryptionKey := key }

/-- Store action `clearCredentials` (`lib/store.ts` lines 92–104): ends the
session, resetting credentials, encryption state (including the in-memory
key) and all cached data. -/
def clearCredentials (s : AppState) : AppState :=
  { s with
    credentials := none
    encryptionConfig := none
    isOnboarded := false
    encryptionKey := none
    salt := none
    transactions := []
    categories := []
    tags := []
    goals := []
    settings := none }

/-! ## The currency service (`lib/services/currency.ts`)

The service reads the store, issues one `update` per transaction plus one
`user_settings` update, and finally updates the store.  The remote store's
per-call outcomes are injected as a function `txResult : String → Option
String` (`none` = success, `some msg` = the call failed with `msg`) and
`settingsResult`; the clock (`new Date().toISOString()`) is injected as
`now`. -/

/-- `convertTransactionsCurrency` (`lib/services/currency.ts` lines 11–19):
map every transaction to a copy whose `amount` is
`Number((transaction.amount * conversionRate).toFixed(2))`. -/
def convertTransactionsCurrency (transactions : List Transaction)
    (conversionRate : JsNum) : List Transaction :=
  transactions.map fun transaction =>
    { transaction with amount := transaction.amount.mulFix2 conversionRate }

/-- The payload of the per-transaction `update` call issued by
`updateTransactionsCurrencyInDB` (lines 52–55): exactly the `amount` and
`updated_at` columns. -/
def convPayload (t : Transaction) (now : String) : TxWrite :=
  { amount := some t.amount, updated_at := some now }

/-- Apply one `update(...).eq('id', id)` call to the table. -/
def applyTxUpdate (db : List DbRow) (id : String) (w : TxWrite) : List DbRow :=
  db.map fun r => if r.id = id then applyWrite r w else r

/-- Run the batch of per-transaction updates: every call is issued
(`Promise.all` fires them all); the successful ones take effect on the
table, the failed ones leave their row untouched. -/
def runTxUpdates (db : List DbRow) (ops : List (String × TxWrite))
    (txResult : String → Option String) : List DbRow :=
  ops.foldl (fun acc p => if txResult p.1 = none then applyTxUpdate acc p.1 p.2 else acc) db

/-- `results.find(result => result.error)?.error`: the first failed call's
error, in issue order. -/
def firstUpdateError (converted : List Transaction)
    (txResult : String → Option String) : Option String :=
  converted.findSome? fun t => txResult t.id

/-- The outcome of a currency-service call: the transactions table, the
store, the trace of persistence calls issued, and the error thrown to the
caller (if any). -/
structure ConvResult where
  db : List DbRow
  store : AppState
  ops : List DbOp
  thrown : Option String
deriving Repr

/-- `updateTransactionsCurrencyInDB` (`lib/services/currency.ts` lines
27–86): nothing to do on an empty list; otherwise convert locally, issue
one `update({amount, updated_at})` per transaction, throw
`"Failed to update transactions: ..."` on the first failed call (leaving
the store untouched and rolling nothing back), else update
`user_settings.default_currency` (failure there only warns) and finally
`setTransactions`/`setCurrency` on the store. -/
def updateTransactionsCurrencyInDB (st : AppState) (db : List DbRow)
    (newCurrency : String) (conversionRate : JsNum) (now : String)
    (txResult : String → Option String) : ConvResult :=
  let transactions := st.transactions
  if transactions.isEmpty then
    { db := db, store := st, ops := [], thrown := none }
  else
    let convertedTransactions := convertTransactionsCurrency transactions conversionRate
    let updates := convertedTransactions.map fun t => (t.id, convPayload t now)
    let txOps := updates.map fun p => DbOp.updateTransactionRow p.1 p.2
    let db1 := runTxUpdates db updates txResult
    match firstUpdateError convertedTransactions txResult with
    | some msg =>
        { db := db1, store := st, ops := txOps
          thrown := some ("Failed to update transactions: " ++ msg) }
    | none =>
        { db := db1
          store := { st with transactions := convertedTransactions, currency := newCurrency }
          ops := txOps ++ [DbOp.updateUserSettings (st.settings.map UserSettings.id) newCurrency now]
          thrown := none }

/-- `updateCurrencyWithoutConversion` (`lib/services/currency.ts` lines
92–114): update `user_settings.default_currency` only — on failure throw
and leave the store untouched, on success `setCurrency`. -/
def updateCurrencyWithoutConversion (st : AppState) (db : List DbRow)
    (newCurrency : String) (now : String) (settingsResult : Option String) : ConvResult :=
  let op := DbOp.updateUserSettings (st.settings.map UserSettings.id) newCurrency now
  match settingsResult with
  | some msg =>
      { db := db, store := st, ops := [op]
        thrown := some ("Failed to update user settings: " ++ msg) }
  | none =>
      { db := db, store := { st with currency := newCurrency }, ops := [op], thrown := none }

/-! ## The transactions API (`lib/services/transactions.ts`)

JavaScript truthiness drives the branching (`if (encryptionKey && ...)`,
`if (t.encrypted_data && t.iv)`, `if (updates.type)`), so the helpers
below spell it out per type: strings are falsy when empty, numbers when
`0`, `-0` or `NaN`, arrays never, absent (`undefined`/`null`) always. -/

def truthyStr : Option String → Bool
  | none => false
  | some s => !s.isEmpty

def truthyLC : Option (List Char) → Bool
  | none => false
  | some s => !s.isEmpty

def truthyNum : Option JsNum → Bool
  | none => false
  | some n => n.truthy

def truthyArr (o : Option (List String)) : Bool := o.isSome

/-- `fetchTransactions` (`lib/services/transactions.ts` lines 92–127) with
the fetched rows injected: when a key is passed, rows carrying a truthy
`(encrypted_data, iv)` pair get the decrypted sensitive fields spread over
them (a failed decryption rejects the whole call); with no key the rows
are returned exactly as stored. -/
def fetchTransactions (encryptionKey : Option CryptoKeyRef) (rows : List DbRow) :
    Except String (List DbRow) :=
  match encryptionKey with
  | some key =>
      rows.mapM fun t =>
        if truthyLC t.encrypted_data && truthyLC t.iv then
          match decryptTransaction (t.encrypted_data.getD []) (t.iv.getD []) key with
          | some decrypted =>
              .ok { t with
                amount := some decrypted.amount
                description := decrypted.description
                notes := decrypted.notes }
          | none => .error "OperationError"
        else .ok t
  | none => .ok rows

/-- The argument of `createTransaction`:
`Omit<Transaction, 'id' | 'created_at' | 'updated_at'>`. -/
structure TxInput where
  amount : JsNum
  type : String
  date : String
  category_id : String
  description : Option (List Char)
  mood : Option String
  tags : List String
  notes : Option (List Char)
deriving DecidableEq, Repr

/-- `createTransaction` (`lib/services/transactions.ts` lines 132–178):
the row inserted — non-sensitive fields always, and either the envelope
(key present) or the clear sensitive fields (no key). -/
def createTransaction (transaction : TxInput) (encryptionKey : Option CryptoKeyRef)
    (ivBytes : List Nat) : TxWrite :=
  let dataToInsert : TxWrite :=
    { type := some transaction.type
      date := some transaction.date
      category_id := some transaction.category_id
      mood := transaction.mood
      tags := some transaction.tags }
  match encryptionKey with
  | some key =>
      let env := encryptTransaction
        { amount := transaction.amount
          description := transaction.description
          notes := transaction.notes } key ivBytes
      { dataToInsert with encrypted_data := some env.encrypted_data, iv := some env.iv }
  | none =>
      { dataToInsert with
        amount := some transaction.amount
        description := transaction.description
        notes := transaction.notes }

/-- `Partial<Transaction>` as `updateTransaction` consumes it: `none` is
an absent (`undefined`) property. -/
structure TxUpdates where
  type : Option String := none
  date : Option String := none
  category_id : Option String := none
  mood : Option String := none
  tags : Option (List String) := none
  amount : Option JsNum := none
  description : Option (List Char) := none
  notes : Option (List Char) := none
deriving DecidableEq, Repr

/-- `updateTransaction` (`lib/services/transactions.ts` lines 241–303)
with the current row (the `select` by id) injected: non-sensitive fields
are copied when truthy; when a key is present and some updated sensitive
field is truthy, the existing envelope (if any) is decrypted, merged and
re-encrypted; otherwise the updated sensitive fields are written in clear
exactly when present.  Returns the `update` payload sent to the store. -/
def updateTransaction (updates : TxUpdates) (encryptionKey : Option CryptoKeyRef)
    (current : Option DbRow) (ivBytes : List Nat) : Except String TxWrite :=
  let dataToUpdate : TxWrite :=
    { type := if truthyStr updates.type then updates.type else none
      date := if truthyStr updates.date then updates.date else none
      category_id := if truthyStr updates.category_id then updates.category_id else none
      mood := if truthyStr updates.mood then updates.mood else none
      tags := if truthyArr updates.tags then updates.tags else none }
  let clearUpd : TxWrite :=
    { dataToUpdate with
      amount := updates.amount
      description := updates.description
      notes := updates.notes }
  match encryptionKey with
  | some key =>
      if truthyNum updates.amount || truthyLC updates.description || truthyLC updates.notes then
        match current with
        | some cur =>
            let currentData : Option (JsNum × List Char × List Char) :=
              if truthyLC cur.encrypted_data && truthyLC cur.iv then
                (decryptTransaction (cur.encrypted_data.getD []) (cur.iv.getD []) key).map
                  fun d => (d.amount, d.description.getD [], d.notes.getD [])
              else some (JsNum.dec false 0 0, [], [])
            match currentData with
            | none => .error "OperationError"
            | some cd =>
                let mergedData : TxPayload :=
                  { amount := updates.amount.getD cd.1
                    description := some (updates.description.getD cd.2.1)
                    notes := some (updates.notes.getD cd.2.2) }
                let env := encryptTransaction mergedData key ivBytes
                .ok { dataToUpdate with
                  encrypted_data := some env.encrypted_data
                  iv := some env.iv }
        | none => .ok dataToUpdate
      else .ok clearUpd
  | none => .ok clearUpd

/-! ## The conversion dialog (`components/currency-change-dialog.tsx`) -/

/-- `handleConvert` of the dialog (lines 58–79) composed with the settings
page's `handleConvert` (which simply awaits
`updateTransactionsCurrencyInDB`): the parsed rate is rejected with an
error message when `isNaN(rate) || rate <= 0`, before `onConvert` runs and
before any persistence call; otherwise the conversion proceeds.  Returns
the conversion outcome and the dialog's validation error, if any. -/
def handleConvertDialog (rate : JsNum) (st : AppState) (db : List DbRow)
    (newCurrency : String) (now : String)
    (txResult : String → Option String) : ConvResult × Option String :=
  if rate.isNaNb || rate.le0 then
    ({ db := db, store := st, ops := [], thrown := none },
     some "Please enter a valid conversion rate greater than 0")
  else
    (updateTransactionsCurrencyInDB st db newCurrency rate now txResult, none)

/-! ## Concrete scenarios used in the counterexamples -/

/-- A stored row written while encrypted: envelope present, clear
sensitive columns NULL. -/
def encRow : DbRow :=
  { id := "t1", type := "expense", date := "2026-01-01", category_id := "c1"
    mood := none, tags := [], amount := none, description := none, notes := none
    encrypted_data := some ('E' :: 'D' :: []), iv := some ('I' :: 'V' :: [])
    created_at := "2026-01-01T00:00:00Z", updated_at := "2026-01-01T00:00:00Z" }

/-- The in-memory (decrypted) transaction behind `encRow`. -/
def tx1 : Transaction :=
  { id := "t1", amount := JsNum.dec false 10 0, type := "expense"
    date := "2026-01-01", category_id := "c1", category := none
    description := none, mood := none
    tags := [], notes := none, created_at := "2026-01-01T00:00:00Z"
    updated_at := "2026-01-01T00:00:00Z", user_id := none }

/-- A session with encryption enabled, one transaction, and — in the
scenarios that need a locked session — no key in memory. -/
def lockedState : AppState :=
  { credentials := none, encryptionConfig := some ⟨true, "password"⟩
    isOnboarded := true, encryptionKey := none, salt := some "c2FsdA=="
    transactions := [tx1], categories := [], tags := [], goals := []
    settings := some ⟨"s1", "u1", "USD"⟩, currency := "USD"
    isLoading := false, error := none }

/-- Ten transactions `t0 .. t9` for the partial-failure scenario. -/
def txs10 : List Transaction :=
  (List.range 10).map fun i => { tx1 with id := "t" ++ toString i }

/-- Their stored rows (clear mode). -/
def rows10 : List DbRow :=
  (List.range 10).map fun i =>
    { encRow with
      id := "t" ++ toString i
      amount := some (JsNum.dec false 10 0)
      encrypted_data := none
      iv := none }

def state10 : AppState := { lockedState with transactions := txs10 }

/-- How many table rows a conversion outcome has rewritten (their
`updated_at` column was set to the injected clock). -/
def rewrittenCount (r : ConvResult) (now : String) : Nat :=
  (r.db.filter fun row => row.updated_at = now).length

/-! # Theorems -/

/-- C9: the persisted projection of the store contains only credentials,
encryption config, currency, onboarding flag and salt — it is unchanged
under any replacement of the in-memory `encryptionKey`, so the key never
reaches durable storage — and ending the session resets the key to
`null`. -/
theorem encryptionKeyNeverPersisted :
    (∀ (s : AppState) (k : Option CryptoKeyRef), partialize (setEncryptionKey s k) = partialize s) ∧
    (∀ s : AppState, (clearCredentials s).encryptionKey = none) :=
  ⟨fun _ _ => rfl, fun _ => rfl⟩

/-- C10: the pure rewrite step of convert keeps length, order and every
field but `amount` — `id`, `type`, `date`, `category_id`, `category`,
`description`, `mood`, `tags`, `notes`, `created_at`, `updated_at` and
`user_id` all unchanged; the per-record update payload it issues carries
exactly the `amount` and `updated_at` columns, so applying it to a stored
row leaves `id`, `type`, `date`, `category_id`, `tags`, `mood`,
`description`, `notes`, `encrypted_data` and `iv` untouched. -/
theorem convertTouchesOnlyAmount (transactions : List Transaction) (rate : JsNum)
    (t : Transaction) (r : DbRow) (now : String) :
    (convertTransactionsCurrency transactions rate).length = transactions.length ∧
    (convertTransactionsCurrency transactions rate).map Transaction.id =
      transactions.map Transaction.id ∧
    (convertTransactionsCurrency transactions rate).map Transaction.type =
      transactions.map Transaction.type ∧
    (convertTransactionsCurrency transactions rate).map Transaction.date =
      transactions.map Transaction.date ∧
    (convertTransactionsCurrency transactions rate).map Transaction.category_id =
      transactions.map Transaction.category_id ∧
    (convertTransactionsCurrency transactions rate).map Transaction.category =
      transactions.map Transaction.category ∧
    (convertTransactionsCurrency transactions rate).map Transaction.description =
      transactions.map Transaction.description ∧
    (convertTransactionsCurrency transactions rate).map Transaction.mood =
      transactions.map Transaction.mood ∧
    (convertTransactionsCurrency transactions rate).map Transaction.tags =
      transactions.map Transaction.tags ∧
    (convertTransactionsCurrency transactions rate).map Transaction.notes =
      transactions.map Transaction.notes ∧
    (convertTransactionsCurrency transactions rate).map Transaction.created_at =
      transactions.map Transaction.created_at ∧
    (convertTransactionsCurrency transactions rate).map Transaction.updated_at =
      transactions.map Transaction.updated_at ∧
    (convertTransactionsCurrency transactions rate).map Transaction.user_id =
      transactions.map Transaction.user_id ∧
    (convertTransactionsCurrency transactions rate).map Transaction.amount =
      transactions.map (fun t => t.amount.mulFix2 rate) ∧
    (applyWrite r (convPayload t now)).id = r.id ∧
    (applyWrite r (convPayload t now)).type = r.type ∧
    (applyWrite r (convPayload t now)).date = r.date ∧
    (applyWrite r (convPayload t now)).category_id = r.category_id ∧
    (applyWrite r (convPayload t now)).mood = r.mood ∧
    (applyWrite r (convPayload t now)).tags = r.tags ∧
    (applyWrite r (convPayload t now)).description = r.description ∧
    (applyWrite r (convPayload t now)).notes = r.notes ∧
    (applyWrite r (convPayload t now)).encrypted_data = r.encrypted_data ∧
    (applyWrite r (convPayload t now)).iv = r.iv ∧
    (applyWrite r (convPayload t now)).amount = some t.amount ∧
    (applyWrite r (convPayload t now)).updated_at = now := by
  refine ⟨?_, ?_, ?_, ?_, ?_, ?_, ?_, ?_, ?_, ?_, ?_, ?_, ?_, ?_, ?_, ?_, ?_, ?_, ?_, ?_, ?_, ?_,
    ?_, ?_, ?_, ?_⟩ <;>
    simp [convertTransactionsCurrency, convPayload, applyWrite]

/-- The code's rounding (`toFixed(2)` read back by `Number`, `fix2`)
computes exactly the spec's rounding policy (`roundHalfAway2`, written
from the spec's words): round to two decimal places, half away from
zero. -/
theorem fix2_eq_roundHalfAway2 (neg : Bool) (man e : Nat) :
    fix2 neg man e = roundHalfAway2 neg man e := by
  have key : (if e ≤ 2 then man * 10 ^ (2 - e)
      else man / 10 ^ (e - 2) + (if 10 ^ (e - 2) ≤ man % 10 ^ (e - 2) * 2 then 1 else 0)) =
      man * 100 / 10 ^ e + (if 2 * (man * 100 % 10 ^ e) < 10 ^ e then 0 else 1) := by
    by_cases he : e ≤ 2
    · rw [if_pos he]
      have hpos : 0 < (10 : Nat) ^ e := Nat.pos_pow_of_pos e (by omega)
      have h100 : man * 100 = man * 10 ^ (2 - e) * 10 ^ e := by
        rw [Nat.mul_assoc, ← pow_add, show 2 - e + e = 2 from by omega]
        norm_num
      rw [h100, Nat.mul_div_cancel _ hpos, Nat.mul_mod_left]
      rw [if_pos (by omega)]
      omega
    · rw [if_neg he]
      have hd : (10 : Nat) ^ e = 10 ^ (e - 2) * 100 := by
        rw [show (100 : Nat) = 10 ^ 2 from rfl, ← pow_add]
        congr 1
        omega
      rw [hd, Nat.mul_div_mul_right _ _ (by omega : 0 < 100), Nat.mul_mod_mul_right]
      by_cases h : 10 ^ (e - 2) ≤ man % 10 ^ (e - 2) * 2
      · rw [if_pos h, if_neg (by omega)]
      · rw [if_neg h, if_pos (by omega)]
  simp only [fix2, roundHalfAway2]
  rw [key]

/-- C7: the rebased amounts of `convertTransactionsCurrency` are exactly
`mulFix2` of amount and rate, and on finite decimals `mulFix2` equals the
spec's `round(a * r, 2)` with round-half-away-from-zero applied to the
exact product — in particular 19.99 at rate 0.92 gives 18.39, and rate 1
returns `round(a, 2)`, numerically the original amount within
rounding. -/
theorem convertedAmountRoundsHalfAway :
    (∀ (transactions : List Transaction) (rate : JsNum),
      (convertTransactionsCurrency transactions rate).map Transaction.amount =
        transactions.map fun t => t.amount.mulFix2 rate) ∧
    (∀ (n1 n2 : Bool) (m1 e1 m2 e2 : Nat),
      (JsNum.dec n1 m1 e1).mulFix2 (JsNum.dec n2 m2 e2) =
        roundHalfAway2 (n1 != n2) (m1 * m2) (e1 + e2)) ∧
    (JsNum.dec false 1999 2).mulFix2 (JsNum.dec false 92 2) = JsNum.dec false 1839 2 ∧
    (∀ (neg : Bool) (man e : Nat),
      (JsNum.dec neg man e).mulFix2 (JsNum.dec false 1 0) = roundHalfAway2 neg man e) := by
  refine ⟨?_, ?_, ?_, ?_⟩
  · intro transactions rate
    simp [convertTransactionsCurrency]
  · intro n1 n2 m1 e1 m2 e2
    simp only [JsNum.mulFix2]
    exact fix2_eq_roundHalfAway2 _ _ _
  · decide
  · intro neg man e
    simp only [JsNum.mulFix2, Nat.mul_one, Nat.add_zero]
    rw [show (neg != false) = neg from by cases neg <;> rfl]
    exact fix2_eq_roundHalfAway2 neg man e

/-- C8: `updateCurrencyWithoutConversion` issues no transaction write at
all — its only persistence call is the `user_settings` update — leaves
the table and every cached record untouched, and on success changes
nothing in the store but the currency code (on failure it throws and
changes nothing). -/
theorem keepAsIsOnlyRelabels (st : AppState) (db : List DbRow) (newCurrency now : String)
    (settingsResult : Option String) :
    (updateCurrencyWithoutConversion st db newCurrency now settingsResult).db = db ∧
    (updateCurrencyWithoutConversion st db newCurrency now settingsResult).ops =
      [DbOp.updateUserSettings (st.settings.map UserSettings.id) newCurrency now] ∧
    (∀ id w, DbOp.updateTransactionRow id w ∉
      (updateCurrencyWithoutConversion st db newCurrency now settingsResult).ops) ∧
    (∀ w, DbOp.insertTransactionRow w ∉
      (updateCurrencyWithoutConversion st db newCurrency now settingsResult).ops) ∧
    (updateCurrencyWithoutConversion st db newCurrency now settingsResult).store.transactions =
      st.transactions ∧
    (settingsResult = none →
      (updateCurrencyWithoutConversion st db newCurrency now settingsResult).store =
        { st with currency := newCurrency } ∧
      (updateCurrencyWithoutConversion st db newCurrency now settingsResult).thrown = none) ∧
    (∀ msg, settingsResult = some msg →
      (updateCurrencyWithoutConversion st db newCurrency now settingsResult).store = st ∧
      (updateCurrencyWithoutConversion st db newCurrency now settingsResult).thrown =
        some ("Failed to update user settings: " ++ msg)) := by
  cases settingsResult <;>
    simp [updateCurrencyWithoutConversion]

/-- Witness for C8 at a concrete session: keeping as-is from USD to EUR
with a successful settings write relabels the currency and leaves the one
stored row alone. -/
theorem keepAsIsOnlyRelabels_witness :
    (updateCurrencyWithoutConversion lockedState [encRow] "EUR" "NOW" none).db = [encRow] ∧
    (updateCurrencyWithoutConversion lockedState [encRow] "EUR" "NOW" none).store =
      { lockedState with currency := "EUR" } ∧
    (updateCurrencyWithoutConversion lockedState [encRow] "EUR" "NOW" none).thrown = none := by
  have h := keepAsIsOnlyRelabels lockedState [encRow] "EUR" "NOW" none
  exact ⟨h.1, (h.2.2.2.2.2.1 rfl).1, (h.2.2.2.2.2.1 rfl).2⟩

/-- C5 counterexample: `Infinity` is none of `NaN`, zero or negative, so
`parseFloat`'s guard `isNaN(rate) || rate <= 0` lets it through: with one
stored transaction the dialog raises no validation error and one
persistence call is issued — not zero. -/
theorem infiniteRateNotRejected :
    (handleConvertDialog (JsNum.infty false) lockedState [encRow] "EUR" "NOW"
      (fun _ => none)).2 = none ∧
    (handleConvertDialog (JsNum.infty false) lockedState [encRow] "EUR" "NOW"
      (fun _ => none)).1.ops.head? =
      some (DbOp.updateTransactionRow "t1"
        { amount := some (JsNum.infty false), updated_at := some "NOW" }) ∧
    (handleConvertDialog (JsNum.infty false) lockedState [encRow] "EUR" "NOW"
      (fun _ => none)).1.thrown = none := by
  refine ⟨by decide, by decide, by decide⟩

/-- C5 amended: every rate with `isNaN(rate) || rate <= 0` — in
particular `0`, `-5`, `NaN` and `-Infinity`, but not `+Infinity` — is
rejected by the dialog with an error message, with zero persistence calls
and both table and store untouched. -/
theorem badRatesRejectedBeforePersistence (rate : JsNum) (st : AppState) (db : List DbRow)
    (newCurrency now : String) (txResult : String → Option String)
    (h : (rate.isNaNb || rate.le0) = true) :
    handleConvertDialog rate st db newCurrency now txResult =
      ({ db := db, store := st, ops := [], thrown := none },
       some "Please enter a valid conversion rate greater than 0") := by
  unfold handleConvertDialog
  rw [if_pos h]

/-- Witness for the amended C5 at rate zero. -/
theorem badRatesRejectedBeforePersistence_witness :
    handleConvertDialog (JsNum.dec false 0 0) lockedState [encRow] "EUR" "NOW"
      (fun _ => none) =
      ({ db := [encRow], store := lockedState, ops := [], thrown := none },
       some "Please enter a valid conversion rate greater than 0") :=
  badRatesRejectedBeforePersistence (JsNum.dec false 0 0) lockedState [encRow] "EUR" "NOW"
    (fun _ => none) (by decide)

/-- C1 counterexample: with encryption enabled but no key in memory,
`fetchTransactions` returns the envelope-carrying row exactly as stored
(no failure, no decryption), and `updateTransaction` of `amount := 55`
on that encrypted row succeeds with a payload that writes the amount in
clear — no `EncryptionKeyRequired` failure anywhere. -/
theorem lockedFallsBackToClear_cex :
    fetchTransactions none [encRow] = .ok [encRow] ∧
    updateTransaction { amount := some (JsNum.dec false 55 0) } none (some encRow) [] =
      .ok { amount := some (JsNum.dec false 55 0) } ∧
    (applyWrite encRow { amount := some (JsNum.dec false 55 0) }).amount =
      some (JsNum.dec false 55 0) ∧
    (applyWrite encRow { amount := some (JsNum.dec false 55 0) }).encrypted_data =
      encRow.encrypted_data := by
  refine ⟨rfl, rfl, rfl, rfl⟩

/-- C1 amended: no operation fails for lack of a key.  With `key = null`,
`fetchTransactions` returns every row — envelope included — undecrypted,
and `updateTransaction` succeeds, writing exactly the supplied sensitive
fields in clear and touching no envelope column. -/
theorem lockedFallsBackToClear (rows : List DbRow) (updates : TxUpdates)
    (current : Option DbRow) (ivBytes : List Nat) :
    fetchTransactions none rows = .ok rows ∧
    ∃ w, updateTransaction updates none current ivBytes = .ok w ∧
      w.amount = updates.amount ∧ w.description = updates.description ∧
      w.notes = updates.notes ∧ w.encrypted_data = none ∧ w.iv = none := by
  refine ⟨rfl, ⟨_, rfl, rfl, rfl, rfl, rfl, rfl⟩⟩

/-- The batch of per-row updates never adds or removes table rows. -/
theorem runTxUpdates_length (db : List DbRow) (ops : List (String × TxWrite))
    (res : String → Option String) : (runTxUpdates db ops res).length = db.length := by
  induction ops generalizing db with
  | nil => rfl
  | cons p ops ih =>
      have step : runTxUpdates db (p :: ops) res =
          runTxUpdates (if res p.1 = none then applyTxUpdate db p.1 p.2 else db) ops res := rfl
      rw [step, ih]
      by_cases h : res p.1 = none <;> simp [h, applyTxUpdate]

/-- C6 counterexample: ten records with the third persistence call
failing gives the same thrown error as ten records with every call
failing, although nine records were rewritten in the first run and none
in the second — the failure report carries no counts (and the nine
rewritten rows stay rewritten: no rollback). -/
theorem partialFailureReportLacksCounts_cex :
    (updateTransactionsCurrencyInDB state10 rows10 "EUR" (JsNum.dec false 1 0) "NOW"
      (fun id => if id = "t2" then some "boom" else none)).thrown =
      (updateTransactionsCurrencyInDB state10 rows10 "EUR" (JsNum.dec false 1 0) "NOW"
        (fun _ => some "boom")).thrown ∧
    (updateTransactionsCurrencyInDB state10 rows10 "EUR" (JsNum.dec false 1 0) "NOW"
      (fun id => if id = "t2" then some "boom" else none)).thrown =
      some "Failed to update transactions: boom" ∧
    rewrittenCount (updateTransactionsCurrencyInDB state10 rows10 "EUR" (JsNum.dec false 1 0)
      "NOW" (fun id => if id = "t2" then some "boom" else none)) "NOW" = 9 ∧
    rewrittenCount (updateTransactionsCurrencyInDB state10 rows10 "EUR" (JsNum.dec false 1 0)
      "NOW" (fun _ => some "boom")) "NOW" = 0 := by
  refine ⟨by decide, by decide, by decide, by decide⟩

/-- C6 amended: when any persistence call of the batch fails, `convert`
throws an error built from the first failing call's message alone — no
counts — the store (including the currency) is left unchanged, no row is
rolled back (the table is exactly the successful updates applied), and
the table keeps its length. -/
theorem partialFailureThrowsFirstError (st : AppState) (db : List DbRow)
    (newCurrency : String) (rate : JsNum) (now : String)
    (txResult : String → Option String) (msg : String)
    (h : firstUpdateError (convertTransactionsCurrency st.transactions rate) txResult =
      some msg) :
    (updateTransactionsCurrencyInDB st db newCurrency rate now txResult).thrown =
      some ("Failed to update transactions: " ++ msg) ∧
    (updateTransactionsCurrencyInDB st db newCurrency rate now txResult).store = st ∧
    (updateTransactionsCurrencyInDB st db newCurrency rate now txResult).db =
      runTxUpdates db ((convertTransactionsCurrency st.transactions rate).map
        fun t => (t.id, convPayload t now)) txResult ∧
    (updateTransactionsCurrencyInDB st db newCurrency rate now txResult).db.length =
      db.length := by
  have hne : st.transactions.isEmpty = false := by
    cases htx : st.transactions with
    | nil =>
        exfalso
        rw [htx] at h
        simp [convertTransactionsCurrency, firstUpdateError] at h
    | cons a l => rfl
  refine ⟨?_, ?_, ?_, ?_⟩ <;>
    simp only [updateTransactionsCurrencyInDB, hne, Bool.false_eq_true, if_false, h] <;>
    first
      | trivial
      | exact runTxUpdates_length ..

/-- Witness for the amended C6 at the ten-record scenario with the third
call failing. -/
theorem partialFailureThrowsFirstError_witness :
    (updateTransactionsCurrencyInDB state10 rows10 "EUR" (JsNum.dec false 1 0) "NOW"
      (fun id => if id = "t2" then some "boom" else none)).thrown =
      some ("Failed to update transactions: " ++ "boom") ∧
    (updateTransactionsCurrencyInDB state10 rows10 "EUR" (JsNum.dec false 1 0) "NOW"
      (fun id => if id = "t2" then some "boom" else none)).store = state10 ∧
    (updateTransactionsCurrencyInDB state10 rows10 "EUR" (JsNum.dec false 1 0) "NOW"
      (fun id => if id = "t2" then some "boom" else none)).db =
      runTxUpdates rows10 ((convertTransactionsCurrency state10.transactions
        (JsNum.dec false 1 0)).map fun t => (t.id, convPayload t "NOW"))
        (fun id => if id = "t2" then some "boom" else none) ∧
    (updateTransactionsCurrencyInDB state10 rows10 "EUR" (JsNum.dec false 1 0) "NOW"
      (fun id => if id = "t2" then some "boom" else none)).db.length = rows10.length := by
  have h := partialFailureThrowsFirstError state10 rows10 "EUR" (JsNum.dec false 1 0) "NOW"
    (fun id => if id = "t2" then some "boom" else none) "boom" (by decide)
  exact h

/-- C2, at the failing input: converting one encrypted record (clear
columns NULL, envelope present, in-memory amount 10, rate 2) succeeds and
leaves the table row carrying BOTH the untouched envelope and a clear
`amount = 20` — the decrypted, rebased amount is persisted in clear and
the stale envelope still holds the old amount, contradicting the
exclusivity invariant (and the repo's own doc that encrypted amounts
remain encrypted under conversion). -/
theorem convertLeaksClearAmountOnEncryptedRow :
    (updateTransactionsCurrencyInDB lockedState [encRow] "EUR" (JsNum.dec false 2 0) "NOW"
      (fun _ => none)).thrown = none ∧
    (updateTransactionsCurrencyInDB lockedState [encRow] "EUR" (JsNum.dec false 2 0) "NOW"
      (fun _ => none)).db =
      [{ encRow with amount := some (JsNum.dec false 20 0), updated_at := "NOW" }] ∧
    (∀ r ∈ (updateTransactionsCurrencyInDB lockedState [encRow] "EUR" (JsNum.dec false 2 0)
      "NOW" (fun _ => none)).db,
      r.encrypted_data.isSome ∧ r.iv.isSome ∧ r.amount.isSome) := by
  refine ⟨by decide, by decide, by decide⟩

/-! ## Round trip of the base64 layer -/

theorem decB64_encB64 : ∀ s, s < 64 → decB64 (encB64 s) = some s := by decide

theorem encB64_ne_eq : ∀ s, s < 64 → (encB64 s == '=') = false := by decide

theorem atobB_btoaB : ∀ (bs : List Nat), (∀ x ∈ bs, x < 256) → atobB (btoaB bs) = some bs
  | [], _ => rfl
  | [a], h => by
      have ha : a < 256 := h a (by simp)
      have hv : a / 4 * 4 + a % 4 * 16 / 16 = a := by omega
      show atobB [encB64 (a / 4), encB64 (a % 4 * 16), '=', '='] = some [a]
      rw [atobB]
      simp only [List.isEmpty_nil, beq_self_eq_true, Bool.and_self, Bool.and_true, if_true]
      rw [decB64_encB64 _ (by omega), decB64_encB64 _ (by omega)]
      show some [a / 4 * 4 + a % 4 * 16 / 16] = some [a]
      rw [hv]
  | [a, b], h => by
      have ha : a < 256 := h a (by simp)
      have hb : b < 256 := h b (by simp)
      have h1 : a / 4 * 4 + (a % 4 * 16 + b / 16) / 16 = a := by omega
      have h2 : (a % 4 * 16 + b / 16) % 16 * 16 + b % 16 * 4 / 4 = b := by omega
      show atobB [encB64 (a / 4), encB64 (a % 4 * 16 + b / 16), encB64 (b % 16 * 4), '='] =
        some [a, b]
      rw [atobB]
      rw [encB64_ne_eq _ (by omega)]
      simp only [List.isEmpty_nil, beq_self_eq_true, Bool.and_false, Bool.false_and,
        Bool.and_true, Bool.true_and, Bool.false_eq_true, if_false, if_true]
      rw [decB64_encB64 _ (by omega), decB64_encB64 _ (by omega), decB64_encB64 _ (by omega)]
      show some [a / 4 * 4 + (a % 4 * 16 + b / 16) / 16,
        (a % 4 * 16 + b / 16) % 16 * 16 + b % 16 * 4 / 4] = some [a, b]
      rw [h1, h2]
  | a :: b :: c :: rest, h => by
      have ha : a < 256 := h a (by simp)
      have hb : b < 256 := h b (by simp)
      have hc : c < 256 := h c (by simp)
      have ih := atobB_btoaB rest (fun x hx => h x (by simp [hx]))
      have h1 : a / 4 * 4 + (a % 4 * 16 + b / 16) / 16 = a := by omega
      have h2 : (a % 4 * 16 + b / 16) % 16 * 16 + (b % 16 * 4 + c / 64) / 4 = b := by omega
      have h3 : (b % 16 * 4 + c / 64) % 4 * 64 + c % 64 = c := by omega
      show atobB (encB64 (a / 4) :: encB64 (a % 4 * 16 + b / 16) ::
        encB64 (b % 16 * 4 + c / 64) :: encB64 (c % 64) :: btoaB rest) =
        some (a :: b :: c :: rest)
      rw [atobB]
      rw [encB64_ne_eq _ (by omega), encB64_ne_eq _ (by omega)]
      simp only [Bool.and_false, Bool.false_and, Bool.false_eq_true, if_false]
      rw [decB64_encB64 _ (by omega), decB64_encB64 _ (by omega),
        decB64_encB64 _ (by omega), decB64_encB64 _ (by omega), ih]
      show some ((a / 4 * 4 + (a % 4 * 16 + b / 16) / 16) ::
        ((a % 4 * 16 + b / 16) % 16 * 16 + (b % 16 * 4 + c / 64) / 4) ::
        ((b % 16 * 4 + c / 64) % 4 * 64 + c % 64) :: rest) = some (a :: b :: c :: rest)
      rw [h1, h2, h3]
termination_by bs => bs.length

/-! ## Round trip of the UTF-8 layer -/

theorem char_range (c : Char) :
    c.toNat < 0xD800 ∨ (0xE000 ≤ c.toNat ∧ c.toNat < 0x110000) := by
  have h := c.valid
  have e : c.toNat = c.val.toNat := rfl
  rcases h with h | h
  · left; omega
  · right; omega

theorem encodeUtf8Char_lt (c : Char) : ∀ b ∈ encodeUtf8Char c, b < 256 := by
  have h := char_range c
  intro b hb
  rw [encodeUtf8Char] at hb
  by_cases h1 : c.toNat < 0x80
  · rw [if_pos h1] at hb; simp at hb; omega
  · rw [if_neg h1] at hb
    by_cases h2 : c.toNat < 0x800
    · rw [if_pos h2] at hb; simp at hb; rcases hb with hb | hb <;> omega
    · rw [if_neg h2] at hb
      by_cases h3 : c.toNat < 0x10000
      · rw [if_pos h3] at hb; simp at hb; rcases hb with hb | hb | hb <;> omega
      · rw [if_neg h3] at hb; simp at hb; rcases hb with hb | hb | hb | hb <;> omega

theorem decodeUtf8Char_encodeUtf8Char (c : Char) (rest : List Nat) :
    decodeUtf8Char (encodeUtf8Char c ++ rest) = some (c, rest) := by
  have hr := char_range c
  rw [encodeUtf8Char]
  by_cases h1 : c.toNat < 0x80
  · rw [if_pos h1]
    rw [List.cons_append, List.nil_append]
    simp only [decodeUtf8Char.eq_def]
    rw [if_pos h1, Char.ofNat_toNat]
  · rw [if_neg h1]
    by_cases h2 : c.toNat < 0x800
    · rw [if_pos h2]
      rw [List.cons_append, List.cons_append, List.nil_append]
      simp only [decodeUtf8Char.eq_def]
      rw [if_neg (by omega : ¬ 0xC0 + c.toNat / 64 < 0x80)]
      rw [if_neg (by omega : ¬ 0xC0 + c.toNat / 64 < 0xC0)]
      rw [if_pos (by omega : 0xC0 + c.toNat / 64 < 0xE0)]
      rw [if_pos (by simp only [Bool.and_eq_true, decide_eq_true_eq]; omega)]
      have hv : (0xC0 + c.toNat / 64 - 0xC0) * 64 + (0x80 + c.toNat % 64 - 0x80) =
        c.toNat := by omega
      rw [hv]
      rw [if_pos (by omega : 0x80 ≤ c.toNat), Char.ofNat_toNat]
    · rw [if_neg h2]
      by_cases h3 : c.toNat < 0x10000
      · rw [if_pos h3]
        rw [List.cons_append, List.cons_append, List.cons_append, List.nil_append]
        simp only [decodeUtf8Char.eq_def]
        rw [if_neg (by omega : ¬ 0xE0 + c.toNat / 4096 < 0x80)]
        rw [if_neg (by omega : ¬ 0xE0 + c.toNat / 4096 < 0xC0)]
        rw [if_neg (by omega : ¬ 0xE0 + c.toNat / 4096 < 0xE0)]
        rw [if_pos (by omega : 0xE0 + c.toNat / 4096 < 0xF0)]
        rw [if_pos (by simp only [Bool.and_eq_true, decide_eq_true_eq]; omega)]
        have hv : (0xE0 + c.toNat / 4096 - 0xE0) * 4096 +
            (0x80 + c.toNat / 64 % 64 - 0x80) * 64 + (0x80 + c.toNat % 64 - 0x80) =
            c.toNat := by omega
        rw [hv]
        rw [if_pos (by
          simp only [Bool.and_eq_true, decide_eq_true_eq, Bool.not_eq_true',
            Bool.and_eq_false_iff, decide_eq_false_iff_not]
          omega)]
        rw [Char.ofNat_toNat]
      · rw [if_neg h3]
        rw [List.cons_append, List.cons_append, List.cons_append, List.cons_append,
          List.nil_append]
        simp only [decodeUtf8Char.eq_def]
        rw [if_neg (by omega : ¬ 0xF0 + c.toNat / 262144 < 0x80)]
        rw [if_neg (by omega : ¬ 0xF0 + c.toNat / 262144 < 0xC0)]
        rw [if_neg (by omega : ¬ 0xF0 + c.toNat / 262144 < 0xE0)]
        rw [if_neg (by omega : ¬ 0xF0 + c.toNat / 262144 < 0xF0)]
        rw [if_pos (by omega : 0xF0 + c.toNat / 262144 < 0xF8)]
        rw [if_pos (by simp only [Bool.and_eq_true, decide_eq_true_eq]; omega)]
        have hv : (0xF0 + c.toNat / 262144 - 0xF0) * 262144 +
            (0x80 + c.toNat / 4096 % 64 - 0x80) * 4096 +
            (0x80 + c.toNat / 64 % 64 - 0x80) * 64 + (0x80 + c.toNat % 64 - 0x80) =
            c.toNat := by omega
        rw [hv]
        rw [if_pos (by simp only [Bool.and_eq_true, decide_eq_true_eq]; omega)]
        rw [Char.ofNat_toNat]

theorem decodeUtf8_of_char (bs : List Nat) (c : Char) (tail : List Nat)
    (h : decodeUtf8Char bs = some (c, tail)) :
    decodeUtf8 bs = (decodeUtf8 tail).map (c :: ·) := by
  match bs with
  | [] => rw [decodeUtf8Char.eq_def] at h; cases h
  | b :: rest =>
      rw [decodeUtf8]
      split
      · rename_i heq
        rw [h] at heq
        cases heq
      · rename_i p heq
        rw [h] at heq
        cases heq
        rfl

theorem decodeUtf8_encodeUtf8_append (s : List Char) (rest : List Nat) :
    decodeUtf8 (encodeUtf8 s ++ rest) = (decodeUtf8 rest).map (s ++ ·) := by
  induction s with
  | nil =>
      show decodeUtf8 (encodeUtf8 [] ++ rest) = _
      have he : encodeUtf8 [] = [] := rfl
      rw [he, List.nil_append]
      cases hd : decodeUtf8 rest <;> simp
  | cons c s ih =>
      have he : encodeUtf8 (c :: s) = encodeUtf8Char c ++ encodeUtf8 s := by
        simp [encodeUtf8]
      rw [he, List.append_assoc]
      rw [decodeUtf8_of_char _ c (encodeUtf8 s ++ rest)
        (decodeUtf8Char_encodeUtf8Char c (encodeUtf8 s ++ rest))]
      rw [ih, Option.map_map]
      rfl

theorem decodeUtf8_encodeUtf8 (s : List Char) : decodeUtf8 (encodeUtf8 s) = some s := by
  have h := decodeUtf8_encodeUtf8_append s []
  simpa [decodeUtf8] using h

/-! ## Round trip of the JSON number printer -/

theorem toNat_ofNatChar (n : Nat) (h : n < 55296) : (Char.ofNat n).toNat = n := by
  have hv : n.isValidChar := Or.inl h
  rw [Char.ofNat, dif_pos hv]
  simp [Char.toNat, Char.ofNatAux, UInt32.toNat, UInt32.ofNat', BitVec.toNat_ofNat]

theorem digitChar_toNat (d : Nat) (h : d < 10) : (digitChar d).toNat = 48 + d :=
  toNat_ofNatChar _ (by omega)

theorem isDigitCh_digitChar (d : Nat) (h : d < 10) : isDigitCh (digitChar d) = true := by
  simp only [isDigitCh, digitChar_toNat d h, Bool.and_eq_true, decide_eq_true_eq]
  omega

theorem natDigits_digits (n : Nat) : ∀ c ∈ natDigits n, isDigitCh c = true := by
  induction n using Nat.strong_induction_on with
  | _ n ih =>
      rw [natDigits]
      by_cases h : n < 10
      · rw [if_pos h]
        intro c hc
        simp at hc
        subst hc
        exact isDigitCh_digitChar n h
      · rw [if_neg h]
        intro c hc
        rcases List.mem_append.mp hc with hc | hc
        · exact ih (n / 10) (by omega) c hc
        · simp at hc
          subst hc
          exact isDigitCh_digitChar _ (by omega)

theorem natDigits_ne_nil (n : Nat) : natDigits n ≠ [] := by
  rw [natDigits]
  by_cases h : n < 10
  · rw [if_pos h]; simp
  · rw [if_neg h]; simp

theorem natDigits_foldl (n : Nat) :
    ∀ acc, (natDigits n).foldl (fun a c => a * 10 + (c.toNat - 48)) acc =
      acc * 10 ^ (natDigits n).length + n := by
  induction n using Nat.strong_induction_on with
  | _ n ih =>
      intro acc
      rw [natDigits]
      by_cases h : n < 10
      · rw [if_pos h]
        simp only [List.foldl_cons, List.foldl_nil, List.length_cons, List.length_nil,
          digitChar_toNat n h, pow_one, Nat.zero_add, pow_zero]
        omega
      · rw [if_neg h]
        rw [List.foldl_append]
        rw [ih (n / 10) (by omega) acc]
        simp only [List.foldl_cons, List.foldl_nil, List.length_append, List.length_cons,
          List.length_nil, digitChar_toNat (n % 10) (by omega : n % 10 < 10)]
        rw [pow_succ]
        have : acc * (10 ^ (natDigits (n / 10)).length * 10) =
            acc * 10 ^ (natDigits (n / 10)).length * 10 := by ring
        rw [this]
        omega

theorem digitsVal_natDigits (n : Nat) : digitsVal (natDigits n) = n := by
  have h := natDigits_foldl n 0
  simpa [digitsVal] using h

theorem digitsVal_replicate_zero (k : Nat) (ds : List Char) :
    digitsVal (List.replicate k '0' ++ ds) = digitsVal ds := by
  induction k with
  | zero => simp
  | succ k ih =>
      rw [List.replicate_succ, List.cons_append]
      show digitsVal ('0' :: (List.replicate k '0' ++ ds)) = _
      rw [show digitsVal ('0' :: (List.replicate k '0' ++ ds)) =
        digitsVal (List.replicate k '0' ++ ds) from rfl, ih]

theorem spanDigits_stop (rest : List Char)
    (h : ∀ c, rest.head? = some c → isDigitCh c = false) : spanDigits rest = ([], rest) := by
  cases rest with
  | nil => rfl
  | cons c t =>
      rw [spanDigits, if_neg]
      simp [h c rfl]

theorem spanDigits_append (ds rest : List Char) (hds : ∀ c ∈ ds, isDigitCh c = true)
    (h : ∀ c, rest.head? = some c → isDigitCh c = false) :
    spanDigits (ds ++ rest) = (ds, rest) := by
  induction ds with
  | nil => simpa using spanDigits_stop rest h
  | cons c t ih =>
      rw [List.cons_append, spanDigits, if_pos (hds c (by simp))]
      rw [ih (fun x hx => hds x (by simp [hx]))]

/-- Digit heads are never a minus sign or a dot. -/
theorem digit_ne_minus (c : Char) (h : isDigitCh c = true) : ¬ c = '-' := by
  intro he
  subst he
  simp [isDigitCh] at h

theorem parseUnsigned_int (b : Bool) (man : Nat) (rest : List Char)
    (hrest : ∀ c, rest.head? = some c → isDigitCh c = false ∧ ¬ c = '.') :
    parseUnsigned b (natDigits man ++ rest) = some (JsNum.dec b man 0, rest) := by
  rw [parseUnsigned]
  rw [spanDigits_append (natDigits man) rest (natDigits_digits man)
    (fun c hc => (hrest c hc).1)]
  rw [if_neg (by simpa using natDigits_ne_nil man)]
  cases hr : rest with
  | nil => simp [digitsVal_natDigits]
  | cons c t =>
      have hc := hrest c (by rw [hr]; rfl)
      simp only []
      rw [if_neg hc.2]
      simp [digitsVal_natDigits]

theorem parseUnsigned_frac (b : Bool) (man e : Nat) (he : e ≠ 0) (rest : List Char)
    (hrest : ∀ c, rest.head? = some c → isDigitCh c = false ∧ ¬ c = '.') :
    parseUnsigned b (printDecBody man e ++ rest) = some (JsNum.dec b man e, rest) := by
  rw [printDecBody]
  have hs := natDigits_digits man
  set s := natDigits man with hsdef
  set t := List.replicate (e + 1 - s.length) '0' ++ s with htdef
  have htd : ∀ c ∈ t, isDigitCh c = true := by
    intro c hc
    rcases List.mem_append.mp hc with hc | hc
    · rw [List.eq_of_mem_replicate hc]; decide
    · exact hs c hc
  have htlen : t.length = (e + 1 - s.length) + s.length := by
    rw [htdef, List.length_append, List.length_replicate]
  have hslen : 1 ≤ s.length := by
    cases hq : s with
    | nil => exact absurd (hsdef.symm.trans hq) (natDigits_ne_nil man)
    | cons a l => simp
  have htle : e + 1 ≤ t.length := by omega
  have htk : ∀ c ∈ t.take (t.length - e), isDigitCh c = true :=
    fun c hc => htd c (List.mem_of_mem_take hc)
  have hdr : ∀ c ∈ t.drop (t.length - e), isDigitCh c = true :=
    fun c hc => htd c (List.mem_of_mem_drop hc)
  have htklen : (t.take (t.length - e)).length = t.length - e := by
    rw [List.length_take]
    omega
  have hdrlen : (t.drop (t.length - e)).length = e := by
    rw [List.length_drop]
    omega
  rw [parseUnsigned, List.append_assoc, List.cons_append]
  rw [spanDigits_append _ _ htk (by intro c hc; cases hc; decide)]
  simp only []
  rw [if_neg (by
    intro hnil
    rw [hnil] at htklen
    simp at htklen
    omega)]
  rw [if_pos trivial]
  rw [spanDigits_append _ _ hdr (fun c hc => (hrest c hc).1)]
  simp only []
  rw [if_neg (by
    intro hnil
    rw [hnil] at hdrlen
    simp at hdrlen
    omega)]
  rw [List.take_append_drop, hdrlen]
  rw [htdef, digitsVal_replicate_zero, hsdef, digitsVal_natDigits]

theorem printNum_body_head (man e : Nat) :
    ∃ bh bt, (if e = 0 then natDigits man else printDecBody man e) = bh :: bt ∧
      isDigitCh bh = true := by
  by_cases he : e = 0
  · rw [if_pos he]
    cases hq : natDigits man with
    | nil => exact absurd hq (natDigits_ne_nil man)
    | cons a l => exact ⟨a, l, rfl, natDigits_digits man a (by rw [hq]; simp)⟩
  · rw [if_neg he]
    rw [printDecBody]
    set s := natDigits man with hsdef
    set t := List.replicate (e + 1 - s.length) '0' ++ s with htdef
    have hslen : 1 ≤ s.length := by
      cases hq : s with
      | nil => exact absurd (hsdef.symm.trans hq) (natDigits_ne_nil man)
      | cons a l => simp
    have htlen : t.length = (e + 1 - s.length) + s.length := by
      rw [htdef, List.length_append, List.length_replicate]
    have htklen : (t.take (t.length - e)).length = t.length - e := by
      rw [List.length_take]
      omega
    cases hq : t.take (t.length - e) with
    | nil =>
        exfalso
        rw [hq] at htklen
        simp at htklen
        omega
    | cons a l =>
        refine ⟨a, l ++ '.' :: t.drop (t.length - e), by simp, ?_⟩
        have ha : a ∈ t.take (t.length - e) := by rw [hq]; simp
        have hat : a ∈ t := List.mem_of_mem_take ha
        rcases List.mem_append.mp hat with hmem | hmem
        · rw [List.eq_of_mem_replicate hmem]; decide
        · exact (natDigits_digits man) a (hsdef ▸ hmem)

theorem parseUnsigned_print_body (b : Bool) (man e : Nat) (rest : List Char)
    (hrest : ∀ c, rest.head? = some c → isDigitCh c = false ∧ ¬ c = '.') :
    parseUnsigned b ((if e = 0 then natDigits man else printDecBody man e) ++ rest) =
      some (JsNum.dec b man e, rest) := by
  by_cases he : e = 0
  · rw [if_pos he, he]
    exact parseUnsigned_int b man rest hrest
  · rw [if_neg he]
    exact parseUnsigned_frac b man e he rest hrest

theorem parseJsNumber_printJsNumber (neg : Bool) (man e : Nat)
    (hsafe : (JsNum.dec neg man e).jsonSafe = true) (rest : List Char)
    (hrest : ∀ c, rest.head? = some c → isDigitCh c = false ∧ ¬ c = '.') :
    parseJsNumber (printJsNumber (JsNum.dec neg man e) ++ rest) =
      some (JsNum.dec neg man e, rest) := by
  obtain ⟨bh, bt, hb, hd⟩ := printNum_body_head man e
  rw [printJsNumber]
  cases hn : neg with
  | false =>
      rw [if_neg (by simp)]
      rw [List.nil_append, hb, List.cons_append]
      simp only [parseJsNumber.eq_def]
      rw [if_neg (digit_ne_minus bh hd)]
      rw [← List.cons_append, ← hb]
      exact parseUnsigned_print_body false man e rest hrest
  | true =>
      have hm : ¬ man = 0 := by
        intro hm0
        rw [hn, hm0] at hsafe
        simp [JsNum.jsonSafe] at hsafe
      rw [if_pos (by simp [hm])]
      rw [List.cons_append, List.nil_append, List.cons_append]
      simp only [parseJsNumber.eq_def]
      rw [if_pos trivial]
      exact parseUnsigned_print_body true man e rest hrest

/-! ## Round trip of the JSON string escaping -/

theorem char_toNat_inj (c d : Char) (h : c.toNat = d.toNat) : c = d := by
  have h2 := congrArg Char.ofNat h
  rwa [Char.ofNat_toNat, Char.ofNat_toNat] at h2

theorem hexVal_hexDigitCh : ∀ d, d < 16 → hexVal (hexDigitCh d) = some d := by decide

theorem parseJsStringStep_quote (t : List Char) :
    parseJsStringStep ('"' :: t) = some (.closed t) := by
  simp only [parseJsStringStep.eq_def]
  rw [if_pos trivial]

theorem parseJsStringStep_raw (c : Char) (h1 : ¬ c = '"') (h2 : ¬ c = '\\')
    (t : List Char) : parseJsStringStep (c :: t) = some (.chr c t) := by
  simp only [parseJsStringStep.eq_def]
  rw [if_neg h1, if_neg h2]

theorem parseJsStringStep_esc2 (e c2 : Char) (he : ¬ e = 'u')
    (hu : unescapeChar e = some c2) (t : List Char) :
    parseJsStringStep ('\\' :: e :: t) = some (.chr c2 t) := by
  simp only [parseJsStringStep.eq_def]
  rw [if_neg (by decide : ¬ '\\' = '"'), if_pos trivial, if_neg he]
  simp only [hu]

theorem parseJsStringStep_escU (x y : Char) (a b : Nat) (hx : hexVal x = some a)
    (hy : hexVal y = some b) (ha : a < 16) (hb2 : b < 16) (t : List Char) :
    parseJsStringStep ('\\' :: 'u' :: '0' :: '0' :: x :: y :: t) =
      some (.chr (Char.ofNat (a * 16 + b)) t) := by
  have hh : hex4 '0' '0' x y = some (a * 16 + b) := by
    rw [hex4, show hexVal '0' = some 0 from rfl, hx, hy]
    show some (((0 * 16 + 0) * 16 + a) * 16 + b) = _
    have hv : ((0 * 16 + 0) * 16 + a) * 16 + b = a * 16 + b := by omega
    rw [hv]
  simp only [parseJsStringStep.eq_def]
  rw [if_neg (by decide : ¬ '\\' = '"'), if_pos trivial, if_pos trivial]
  simp only [hh]
  rw [if_neg (by
    simp only [Bool.and_eq_true, decide_eq_true_eq, Bool.not_eq_true]
    omega)]

theorem parseJsStringBody_quote (t : List Char) :
    parseJsStringBody ('"' :: t) = some ([], t) := by
  rw [parseJsStringBody]
  split
  · rename_i heq
    rw [parseJsStringStep_quote] at heq
    cases heq
  · rename_i rest heq
    rw [parseJsStringStep_quote] at heq
    cases heq
    rfl
  · rename_i c rest heq
    rw [parseJsStringStep_quote] at heq
    cases heq

theorem parseJsStringBody_chr (s : List Char) (c : Char) (t : List Char)
    (h : parseJsStringStep s = some (.chr c t)) :
    parseJsStringBody s = (parseJsStringBody t).map fun p => (c :: p.1, p.2) := by
  rw [parseJsStringBody]
  split
  · rename_i heq
    rw [h] at heq
    cases heq
  · rename_i rest heq
    rw [h] at heq
    cases heq
  · rename_i c2 rest heq
    rw [h] at heq
    cases heq
    rfl

theorem parseJsStringBody_escape (s : List Char) (rest : List Char) :
    parseJsStringBody (s.flatMap escChar ++ ('"' :: rest)) = some (s, rest) := by
  induction s with
  | nil =>
      rw [List.flatMap_nil, List.nil_append]
      exact parseJsStringBody_quote rest
  | cons c s ih =>
      rw [List.flatMap_cons, List.append_assoc]
      rw [escChar]
      by_cases h34 : c.toNat = 34
      · have hc : c = '"' := char_toNat_inj c '"' h34
        rw [if_pos h34, hc]
        rw [show (['\\', '"'] : List Char) ++ (s.flatMap escChar ++ ('"' :: rest)) =
          '\\' :: '"' :: (s.flatMap escChar ++ ('"' :: rest)) from rfl]
        rw [parseJsStringBody_chr _ '"' _ (parseJsStringStep_esc2 '"' '"' (by decide) rfl _),
          ih]
        rfl
      · rw [if_neg h34]
        by_cases h92 : c.toNat = 92
        · have hc : c = '\\' := char_toNat_inj c '\\' h92
          rw [if_pos h92, hc]
          rw [show (['\\', '\\'] : List Char) ++ (s.flatMap escChar ++ ('"' :: rest)) =
            '\\' :: '\\' :: (s.flatMap escChar ++ ('"' :: rest)) from rfl]
          rw [parseJsStringBody_chr _ '\\' _
            (parseJsStringStep_esc2 '\\' '\\' (by decide) rfl _), ih]
          rfl
        · rw [if_neg h92]
          by_cases h8 : c.toNat = 8
          · have hc : c = Char.ofNat 8 := by
              have : Char.ofNat c.toNat = Char.ofNat 8 := by rw [h8]
              rwa [Char.ofNat_toNat] at this
            rw [if_pos h8, hc]
            rw [show (['\\', 'b'] : List Char) ++ (s.flatMap escChar ++ ('"' :: rest)) =
              '\\' :: 'b' :: (s.flatMap escChar ++ ('"' :: rest)) from rfl]
            rw [parseJsStringBody_chr _ (Char.ofNat 8) _
                      (parseJsStringStep_esc2 'b' (Char.ofNat 8) (by decide) rfl _), ih]
            rfl
          · rw [if_neg h8]
            by_cases h9 : c.toNat = 9
            · have hc : c = Char.ofNat 9 := by
                have : Char.ofNat c.toNat = Char.ofNat 9 := by rw [h9]
                rwa [Char.ofNat_toNat] at this
              rw [if_pos h9, hc]
              rw [show (['\\', 't'] : List Char) ++ (s.flatMap escChar ++ ('"' :: rest)) =
                '\\' :: 't' :: (s.flatMap escChar ++ ('"' :: rest)) from rfl]
              rw [parseJsStringBody_chr _ (Char.ofNat 9) _
                      (parseJsStringStep_esc2 't' (Char.ofNat 9) (by decide) rfl _), ih]
              rfl
            · rw [if_neg h9]
              by_cases h10 : c.toNat = 10
              · have hc : c = Char.ofNat 10 := by
                  have : Char.ofNat c.toNat = Char.ofNat 10 := by rw [h10]
                  rwa [Char.ofNat_toNat] at this
                rw [if_pos h10, hc]
                rw [show (['\\', 'n'] : List Char) ++ (s.flatMap escChar ++ ('"' :: rest)) =
                  '\\' :: 'n' :: (s.flatMap escChar ++ ('"' :: rest)) from rfl]
                rw [parseJsStringBody_chr _ (Char.ofNat 10) _
                      (parseJsStringStep_esc2 'n' (Char.ofNat 10) (by decide) rfl _), ih]
                rfl
              · rw [if_neg h10]
                by_cases h12 : c.toNat = 12
                · have hc : c = Char.ofNat 12 := by
                    have : Char.ofNat c.toNat = Char.ofNat 12 := by rw [h12]
                    rwa [Char.ofNat_toNat] at this
                  rw [if_pos h12, hc]
                  rw [show (['\\', 'f'] : List Char) ++
                    (s.flatMap escChar ++ ('"' :: rest)) =
                    '\\' :: 'f' :: (s.flatMap escChar ++ ('"' :: rest)) from rfl]
                  rw [parseJsStringBody_chr _ (Char.ofNat 12) _
                      (parseJsStringStep_esc2 'f' (Char.ofNat 12) (by decide) rfl _), ih]
                  rfl
                · rw [if_neg h12]
                  by_cases h13 : c.toNat = 13
                  · have hc : c = Char.ofNat 13 := by
                      have : Char.ofNat c.toNat = Char.ofNat 13 := by rw [h13]
                      rwa [Char.ofNat_toNat] at this
                    rw [if_pos h13, hc]
                    rw [show (['\\', 'r'] : List Char) ++
                      (s.flatMap escChar ++ ('"' :: rest)) =
                      '\\' :: 'r' :: (s.flatMap escChar ++ ('"' :: rest)) from rfl]
                    rw [parseJsStringBody_chr _ (Char.ofNat 13) _
                      (parseJsStringStep_esc2 'r' (Char.ofNat 13) (by decide) rfl _), ih]
                    rfl
                  · rw [if_neg h13]
                    by_cases h32 : c.toNat < 32
                    · rw [if_pos h32]
                      rw [show (['\\', 'u', '0', '0', hexDigitCh (c.toNat / 16),
                        hexDigitCh (c.toNat % 16)] : List Char) ++
                        (s.flatMap escChar ++ ('"' :: rest)) =
                        '\\' :: 'u' :: '0' :: '0' :: hexDigitCh (c.toNat / 16) ::
                        hexDigitCh (c.toNat % 16) ::
                        (s.flatMap escChar ++ ('"' :: rest)) from rfl]
                      rw [parseJsStringBody_chr _ _ _
                        (parseJsStringStep_escU (hexDigitCh (c.toNat / 16))
                          (hexDigitCh (c.toNat % 16)) (c.toNat / 16) (c.toNat % 16)
                          (hexVal_hexDigitCh _ (by omega)) (hexVal_hexDigitCh _ (by omega))
                          (by omega) (by omega) _), ih]
                      have hv : c.toNat / 16 * 16 + c.toNat % 16 = c.toNat := by omega
                      rw [hv, Char.ofNat_toNat]
                      rfl
                    · rw [if_neg h32]
                      rw [show ([c] : List Char) ++ (s.flatMap escChar ++ ('"' :: rest)) =
                        c :: (s.flatMap escChar ++ ('"' :: rest)) from rfl]
                      rw [parseJsStringBody_chr _ c _
                        (parseJsStringStep_raw c
                          (fun hq => h34 (by rw [hq]; rfl))
                          (fun hq => h92 (by rw [hq]; rfl)) _), ih]
                      rfl

theorem parseJsString_print (s : List Char) (rest : List Char) :
    parseJsString (printJsString s ++ rest) = some (s, rest) := by
  rw [printJsString]
  rw [show ('"' :: s.flatMap escChar ++ ['"']) ++ rest =
    '"' :: (s.flatMap escChar ++ ('"' :: rest)) by simp]
  rw [parseJsString]
  simp only []
  rw [if_pos trivial]
  exact parseJsStringBody_escape s rest

/-! ## Round trip of the payload codec -/

theorem expectLit_append (lit s : List Char) : expectLit lit (lit ++ s) = some s := by
  induction lit with
  | nil => rfl
  | cons c t ih =>
      rw [List.cons_append, expectLit, if_pos rfl]
      exact ih

theorem notNumericHead_comma (x : List Char) :
    ∀ c, ((',' :: x).head? = some c) → isDigitCh c = false ∧ ¬ c = '.' := by
  intro c hc
  simp at hc
  subst hc
  decide

theorem notNumericHead_notes (x : List Char) :
    ∀ c, (((",\"notes\":".toList) ++ x).head? = some c) →
      isDigitCh c = false ∧ ¬ c = '.' := by
  intro c hc
  rw [show (((",\"notes\":".toList) ++ x).head? : Option Char) = some ',' from rfl] at hc
  injection hc with h
  subst h
  decide

theorem notNumericHead_description (x : List Char) :
    ∀ c, (((",\"description\":".toList) ++ x).head? = some c) →
      isDigitCh c = false ∧ ¬ c = '.' := by
  intro c hc
  rw [show (((",\"description\":".toList) ++ x).head? : Option Char) = some ',' from rfl] at hc
  injection hc with h
  subst h
  decide

theorem notNumericHead_brace (x : List Char) :
    ∀ c, (('}' :: x).head? = some c) → isDigitCh c = false ∧ ¬ c = '.' := by
  intro c hc
  simp at hc
  subst hc
  decide

theorem parsePayloadJson_printPayload (p : TxPayload)
    (hsafe : p.amount.jsonSafe = true) :
    parsePayloadJson (printPayload p) = some p := by
  obtain ⟨a, d, nt⟩ := p
  rcases a with _ | s | ⟨neg, man, e⟩
  · simp [JsNum.jsonSafe] at hsafe
  · simp [JsNum.jsonSafe] at hsafe
  · rcases d with _ | dd <;> rcases nt with _ | nn
    · -- no description, no notes
      rw [printPayload]
      simp only [List.append_assoc, List.append_nil, List.nil_append]
      rw [parsePayloadJson]
      rw [expectLit_append]
      simp only [Option.bind_eq_bind, Option.some_bind]
      rw [parseJsNumber_printJsNumber neg man e hsafe _ (notNumericHead_brace [])]
      simp only [Option.some_bind]
      rfl
    · -- notes only
      rw [printPayload]
      simp only [List.append_assoc, List.append_nil, List.nil_append]
      rw [parsePayloadJson]
      rw [expectLit_append]
      simp only [Option.bind_eq_bind, Option.some_bind]
      rw [parseJsNumber_printJsNumber neg man e hsafe _ (notNumericHead_notes _)]
      simp only [Option.some_bind]
      rw [show (expectLit (",\"description\":".toList)
        ((",\"notes\":".toList) ++ (printJsString nn ++ ['}']))) = none from rfl]
      rw [expectLit_append]
      simp only []
      rw [parseJsString_print]
      simp only [Option.bind_eq_bind, Option.some_bind]
      rfl
    · -- description only
      rw [printPayload]
      simp only [List.append_assoc, List.append_nil, List.nil_append]
      rw [parsePayloadJson]
      rw [expectLit_append]
      simp only [Option.bind_eq_bind, Option.some_bind]
      rw [parseJsNumber_printJsNumber neg man e hsafe _ (notNumericHead_description _)]
      simp only [Option.some_bind]
      rw [expectLit_append]
      simp only []
      rw [parseJsString_print]
      simp only [Option.bind_eq_bind, Option.some_bind]
      rw [show (expectLit (",\"notes\":".toList) ['}']) = none from rfl]
      rfl
    · -- both
      rw [printPayload]
      simp only [List.append_assoc, List.append_nil, List.nil_append]
      rw [parsePayloadJson]
      rw [expectLit_append]
      simp only [Option.bind_eq_bind, Option.some_bind]
      rw [parseJsNumber_printJsNumber neg man e hsafe _ (notNumericHead_description _)]
      simp only [Option.some_bind]
      rw [expectLit_append]
      simp only []
      rw [parseJsString_print]
      simp only [Option.bind_eq_bind, Option.some_bind]
      rw [expectLit_append]
      simp only []
      rw [parseJsString_print]
      simp only [Option.bind_eq_bind, Option.some_bind]
      rfl

/-! ## AES state invariants: 16 bytes, each below 256 -/

theorem xor_lt_256 (a b : Nat) (ha : a < 256) (hb : b < 256) : a ^^^ b < 256 := by
  have := Nat.xor_lt_two_pow (n := 8) ha hb
  simpa using this

theorem gfMulAux_lt : ∀ (k a b acc : Nat), a < 256 → acc < 256 → gfMulAux k a b acc < 256 := by
  intro k
  induction k with
  | zero => intro a b acc _ hacc; exact hacc
  | succ k ih =>
      intro a b acc ha hacc
      simp only [gfMulAux]
      apply ih
      · apply xor_lt_256
        · exact Nat.mod_lt _ (by omega)
        · split <;> omega
      · split
        · exact xor_lt_256 _ _ hacc ha
        · exact hacc

theorem gfMul_lt (a b : Nat) (ha : a < 256) : gfMul a b < 256 :=
  gfMulAux_lt 8 a b 0 ha (by omega)

theorem gfPow_lt (a : Nat) (ha : a < 256) : ∀ n, gfPow a n < 256 := by
  intro n
  cases n with
  | zero => rw [gfPow]; omega
  | succ n => rw [gfPow]; exact gfMul_lt _ _ ha

theorem rotl8_lt (x n : Nat) (hx : x < 256) : rotl8 x n < 256 := by
  rw [rotl8]
  apply xor_lt_256
  · exact Nat.mod_lt _ (by omega)
  · have : x / 2 ^ (8 - n) ≤ x := Nat.div_le_self _ _
    omega

theorem subByte_lt (b : Nat) (hb : b < 256) : subByte b < 256 := by
  simp only [subByte]
  have hi : gfInv b < 256 := gfPow_lt b hb 254
  apply xor_lt_256
  apply xor_lt_256
  apply xor_lt_256
  apply xor_lt_256
  apply xor_lt_256
  all_goals first
    | exact hi
    | exact rotl8_lt _ _ hi
    | omega

theorem getD_mem_or {α : Type} (l : List α) (i : Nat) (d : α) :
    l.getD i d ∈ l ∨ l.getD i d = d := by
  induction l generalizing i with
  | nil => right; rfl
  | cons a l ih =>
      cases i with
      | zero => left; rw [List.getD_cons_zero]; exact List.mem_cons_self a l
      | succ i =>
          rw [List.getD_cons_succ]
          rcases ih i with h | h
          · left; exact List.mem_cons_of_mem _ h
          · right; exact h

theorem zipWith_xor_lt : ∀ (s rk : List Nat), (∀ b ∈ s, b < 256) → (∀ b ∈ rk, b < 256) →
    ∀ b ∈ List.zipWith (· ^^^ ·) s rk, b < 256 := by
  intro s
  induction s with
  | nil => intro rk _ _; simp
  | cons a s ih =>
      intro rk hs hr
      cases rk with
      | nil => simp
      | cons r rk =>
          intro b hb
          rw [List.zipWith_cons_cons] at hb
          rcases List.mem_cons.mp hb with hb | hb
          · subst hb
            exact xor_lt_256 _ _ (hs a (by simp)) (hr r (by simp))
          · exact ih rk (fun x hx => hs x (by simp [hx])) (fun x hx => hr x (by simp [hx])) b hb

/-- The invariant of an AES state or round key: 16 bytes below 256. -/
def goodBlock (s : List Nat) : Prop := s.length = 16 ∧ ∀ b ∈ s, b < 256

theorem subBytes_good (s : List Nat) (h : goodBlock s) : goodBlock (subBytes s) := by
  obtain ⟨hl, hb⟩ := h
  constructor
  · rw [subBytes, List.length_map, hl]
  · intro b hbm
    rw [subBytes] at hbm
    obtain ⟨a, ha, rfl⟩ := List.mem_map.mp hbm
    exact subByte_lt a (hb a ha)

theorem getD_lt (s : List Nat) (hs : ∀ b ∈ s, b < 256) (i : Nat) : s.getD i 0 < 256 := by
  rcases getD_mem_or s i 0 with h | h
  · exact hs _ h
  · omega

theorem shiftRows_good (s : List Nat) (h : goodBlock s) : goodBlock (shiftRows s) := by
  obtain ⟨hl, hb⟩ := h
  constructor
  · rfl
  · intro b hbm
    rw [shiftRows] at hbm
    obtain ⟨i, hi, rfl⟩ := List.mem_map.mp hbm
    exact getD_lt s hb i

theorem mixColumn_lt (a0 a1 a2 a3 : Nat) (h0 : a0 < 256) (h1 : a1 < 256) (h2 : a2 < 256)
    (h3 : a3 < 256) : ∀ b ∈ mixColumn a0 a1 a2 a3, b < 256 := by
  intro b hb
  rw [mixColumn] at hb
  simp only [List.mem_cons, List.not_mem_nil, or_false] at hb
  rcases hb with rfl | rfl | rfl | rfl
  · exact xor_lt_256 _ _ (xor_lt_256 _ _ (xor_lt_256 _ _ (gfMul_lt 2 a0 (by omega))
      (gfMul_lt 3 a1 (by omega))) h2) h3
  · exact xor_lt_256 _ _ (xor_lt_256 _ _ (xor_lt_256 _ _ h0 (gfMul_lt 2 a1 (by omega)))
      (gfMul_lt 3 a2 (by omega))) h3
  · exact xor_lt_256 _ _ (xor_lt_256 _ _ (xor_lt_256 _ _ h0 h1) (gfMul_lt 2 a2 (by omega)))
      (gfMul_lt 3 a3 (by omega))
  · exact xor_lt_256 _ _ (xor_lt_256 _ _ (xor_lt_256 _ _ (gfMul_lt 3 a0 (by omega)) h1) h2)
      (gfMul_lt 2 a3 (by omega))

theorem mixColumns_good (s : List Nat) (h : goodBlock s) : goodBlock (mixColumns s) := by
  obtain ⟨hl, hb⟩ := h
  constructor
  · rw [mixColumns]
    simp [mixColumn]
  · intro b hbm
    rw [mixColumns] at hbm
    simp only [List.mem_append] at hbm
    rcases hbm with ((hbm | hbm) | hbm) | hbm
    all_goals
      exact mixColumn_lt _ _ _ _ (getD_lt s hb _) (getD_lt s hb _) (getD_lt s hb _) (getD_lt s hb _) b hbm

theorem addRoundKey_good (s rk : List Nat) (hs : goodBlock s) (hr : goodBlock rk) :
    goodBlock (addRoundKey s rk) := by
  obtain ⟨hsl, hsb⟩ := hs
  obtain ⟨hrl, hrb⟩ := hr
  constructor
  · rw [addRoundKey, List.length_zipWith, hsl, hrl]
    omega
  · exact zipWith_xor_lt s rk hsb hrb

/-! ## Key-schedule invariants -/

/-- The invariant of an expanded-key word: 4 bytes below 256. -/
def goodWord (w : List Nat) : Prop := w.length = 4 ∧ ∀ b ∈ w, b < 256

/-- The invariant of an AES-256 key: 32 bytes below 256. -/
def goodKey (key : List Nat) : Prop := key.length = 32 ∧ ∀ b ∈ key, b < 256

theorem getD_mem_of_lt {α : Type} (l : List α) (i : Nat) (d : α) (h : i < l.length) :
    l.getD i d ∈ l := by
  induction l generalizing i with
  | nil => simp at h
  | cons a l ih =>
      cases i with
      | zero => rw [List.getD_cons_zero]; exact List.mem_cons_self a l
      | succ i =>
          rw [List.getD_cons_succ]
          refine List.mem_cons_of_mem _ (ih i ?_)
          simp only [List.length_cons] at h
          omega

theorem rconByte_lt (i : Nat) : rconByte i < 256 := by
  rw [rconByte]
  rcases getD_mem_or [0x01, 0x02, 0x04, 0x08, 0x10, 0x20, 0x40] (i - 1) 0 with h | h
  · simp only [List.mem_cons, List.not_mem_nil, or_false] at h
    omega
  · omega

theorem goodWord_rotWord (w : List Nat) (h : goodWord w) : goodWord (rotWord w) := by
  obtain ⟨hl, hb⟩ := h
  cases w with
  | nil => exact ⟨hl, hb⟩
  | cons a rest =>
      constructor
      · rw [rotWord]
        simp only [List.length_append, List.length_cons, List.length_nil] at hl ⊢
        omega
      · intro b hbm
        rw [rotWord] at hbm
        rcases List.mem_append.mp hbm with h | h
        · exact hb b (List.mem_cons_of_mem _ h)
        · simp only [List.mem_cons, List.not_mem_nil, or_false] at h
          subst h
          exact hb b (by simp)

theorem goodWord_subWord (w : List Nat) (h : goodWord w) : goodWord (subWord w) := by
  obtain ⟨hl, hb⟩ := h
  constructor
  · rw [subWord, List.length_map, hl]
  · intro b hbm
    rw [subWord] at hbm
    obtain ⟨a, ha, rfl⟩ := List.mem_map.mp hbm
    exact subByte_lt a (hb a ha)

theorem goodWord_xorWord (a b : List Nat) (ha : goodWord a) (hb : goodWord b) :
    goodWord (xorWord a b) := by
  obtain ⟨hal, hab⟩ := ha
  obtain ⟨hbl, hbb⟩ := hb
  constructor
  · rw [xorWord, List.length_zipWith, hal, hbl]
    omega
  · exact zipWith_xor_lt a b hab hbb

theorem goodWord_rconWord (i : Nat) : goodWord [rconByte i, 0, 0, 0] := by
  constructor
  · rfl
  · intro b hb
    simp only [List.mem_cons, List.not_mem_nil, or_false] at hb
    have := rconByte_lt i
    rcases hb with rfl | rfl | rfl | rfl <;> omega

/-- Every prefix of the AES-256 expanded key has the expected number of
words, all of them 4 bytes below 256. -/
theorem keyWords_good (key : List Nat) (hk : goodKey key) :
    ∀ n, (keyWords key n).length = n ∧ ∀ w ∈ keyWords key n, goodWord w := by
  obtain ⟨hkl, hkb⟩ := hk
  intro n
  induction n with
  | zero => exact ⟨rfl, by intro w hw; simp [keyWords] at hw⟩
  | succ n ih =>
      obtain ⟨hlen, hws⟩ := ih
      simp only [keyWords, nextKeyWord, hlen]
      by_cases hn : n < 8
      · rw [if_pos hn]
        constructor
        · simp only [List.length_append, hlen, List.length_cons, List.length_nil]
        · intro w hw
          rcases List.mem_append.mp hw with h | h
          · exact hws w h
          · simp only [List.mem_cons, List.not_mem_nil, or_false] at h
            subst h
            constructor
            · rw [List.length_take, List.length_drop, hkl]
              omega
            · intro b hbm
              exact hkb b (List.drop_subset _ _ (List.take_subset _ _ hbm))
      · rw [if_neg hn]
        have htemp : goodWord ((keyWords key n).getD (n - 1) []) :=
          hws _ (getD_mem_of_lt _ _ _ (by rw [hlen]; omega))
        have htemp1 : goodWord (if n % 8 = 0 then
            xorWord (subWord (rotWord ((keyWords key n).getD (n - 1) [])))
              [rconByte (n / 8), 0, 0, 0]
          else if n % 8 = 4 then subWord ((keyWords key n).getD (n - 1) [])
          else (keyWords key n).getD (n - 1) []) := by
          split
          · exact goodWord_xorWord _ _ (goodWord_subWord _ (goodWord_rotWord _ htemp))
              (goodWord_rconWord _)
          · split
            · exact goodWord_subWord _ htemp
            · exact htemp
        have hnew : goodWord (xorWord ((keyWords key n).getD (n - 8) []) _) :=
          goodWord_xorWord _ _ (hws _ (getD_mem_of_lt _ _ _ (by rw [hlen]; omega))) htemp1
        constructor
        · simp only [List.length_append, hlen, List.length_cons, List.length_nil]
        · intro w hw
          rcases List.mem_append.mp hw with h | h
          · exact hws w h
          · simp only [List.mem_cons, List.not_mem_nil, or_false] at h
            subst h
            exact hnew

theorem roundKey_good (key : List Nat) (hk : goodKey key) (r : Nat) (hr : r < 15) :
    goodBlock (roundKey key r) := by
  obtain ⟨hlen, hws⟩ := keyWords_good key hk 60
  have g0 : goodWord ((keyWords key 60).getD (4 * r) []) :=
    hws _ (getD_mem_of_lt _ _ _ (by rw [hlen]; omega))
  have g1 : goodWord ((keyWords key 60).getD (4 * r + 1) []) :=
    hws _ (getD_mem_of_lt _ _ _ (by rw [hlen]; omega))
  have g2 : goodWord ((keyWords key 60).getD (4 * r + 2) []) :=
    hws _ (getD_mem_of_lt _ _ _ (by rw [hlen]; omega))
  have g3 : goodWord ((keyWords key 60).getD (4 * r + 3) []) :=
    hws _ (getD_mem_of_lt _ _ _ (by rw [hlen]; omega))
  constructor
  · simp only [roundKey, List.length_append, g0.1, g1.1, g2.1, g3.1]
  · intro b hb
    simp only [roundKey, List.mem_append] at hb
    rcases hb with ((h | h) | h) | h
    · exact g0.2 b h
    · exact g1.2 b h
    · exact g2.2 b h
    · exact g3.2 b h

theorem aesRound_good (rk s : List Nat) (hrk : goodBlock rk) (hs : goodBlock s) :
    goodBlock (aesRound rk s) :=
  addRoundKey_good _ _ (mixColumns_good _ (shiftRows_good _ (subBytes_good _ hs))) hrk

theorem aesFinalRound_good (rk s : List Nat) (hrk : goodBlock rk) (hs : goodBlock s) :
    goodBlock (aesFinalRound rk s) :=
  addRoundKey_good _ _ (shiftRows_good _ (subBytes_good _ hs)) hrk

theorem foldl_aesRound_good (key : List Nat) (hk : goodKey key) :
    ∀ (l : List Nat), (∀ r ∈ l, r + 1 < 15) → ∀ s, goodBlock s →
      goodBlock (l.foldl (fun s r => aesRound (roundKey key (r + 1)) s) s) := by
  intro l
  induction l with
  | nil => intro _ s hs; exact hs
  | cons a l ih =>
      intro hmem s hs
      rw [List.foldl_cons]
      exact ih (fun r hr => hmem r (by simp [hr])) _
        (aesRound_good _ _ (roundKey_good key hk _ (hmem a (by simp))) hs)

/-- The AES cipher sends 16 bytes below 256 to 16 bytes below 256. -/
theorem aesBlock_good (key block : List Nat) (hk : goodKey key) (hb : goodBlock block) :
    goodBlock (aesBlock key block) := by
  simp only [aesBlock]
  refine aesFinalRound_good _ _ (roundKey_good key hk 14 (by omega)) ?_
  refine foldl_aesRound_good key hk _ ?_ _
    (addRoundKey_good _ _ hb (roundKey_good key hk 0 (by omega)))
  intro r hr
  simp only [List.mem_range] at hr
  omega

/-! ## GCM invariants and the CTR involution -/

theorem natToBytesBE_length (len n : Nat) : (natToBytesBE len n).length = len := by
  simp [natToBytesBE]

theorem natToBytesBE_lt (len n : Nat) : ∀ b ∈ natToBytesBE len n, b < 256 := by
  intro b hb
  simp only [natToBytesBE, List.mem_map] at hb
  obtain ⟨i, _, rfl⟩ := hb
  exact Nat.mod_lt _ (by omega)

theorem inc32_good (b : List Nat) (h : goodBlock b) : goodBlock (inc32 b) := by
  obtain ⟨hl, hb⟩ := h
  constructor
  · rw [inc32, List.length_append, List.length_take, natToBytesBE_length, hl]
    omega
  · intro x hx
    rw [inc32] at hx
    rcases List.mem_append.mp hx with h | h
    · exact hb x (List.take_subset _ _ h)
    · exact natToBytesBE_lt _ _ x h

theorem inc32_iter_good (j0 : List Nat) (h : goodBlock j0) : ∀ i, goodBlock (inc32^[i] j0) := by
  intro i
  induction i with
  | zero => exact h
  | succ i ih =>
      rw [Function.iterate_succ_apply']
      exact inc32_good _ ih

theorem keystream_succ (key j0 : List Nat) (n : Nat) :
    keystream key j0 (n + 1) = keystream key j0 n ++ aesBlock key (inc32^[n + 1] j0) := by
  simp [keystream, List.range_succ]

theorem keystream_length (key j0 : List Nat) (hk : goodKey key) (hj : goodBlock j0) :
    ∀ n, (keystream key j0 n).length = 16 * n := by
  intro n
  induction n with
  | zero => rfl
  | succ n ih =>
      rw [keystream_succ, List.length_append, ih,
        (aesBlock_good key _ hk (inc32_iter_good j0 hj (n + 1))).1]
      omega

theorem keystream_lt (key j0 : List Nat) (hk : goodKey key) (hj : goodBlock j0) :
    ∀ n, ∀ b ∈ keystream key j0 n, b < 256 := by
  intro n
  induction n with
  | zero => intro b hb; simp [keystream] at hb
  | succ n ih =>
      intro b hb
      rw [keystream_succ] at hb
      rcases List.mem_append.mp hb with h | h
      · exact ih b h
      · exact (aesBlock_good key _ hk (inc32_iter_good j0 hj (n + 1))).2 b h

theorem zipWith_xor_xor : ∀ (pt ks : List Nat), pt.length ≤ ks.length →
    List.zipWith (· ^^^ ·) (List.zipWith (· ^^^ ·) pt ks) ks = pt := by
  intro pt
  induction pt with
  | nil => intro ks _; simp
  | cons p pt ih =>
      intro ks h
      cases ks with
      | nil => simp only [List.length_cons, List.length_nil] at h; omega
      | cons k ks =>
          rw [List.zipWith_cons_cons, List.zipWith_cons_cons, Nat.xor_assoc, Nat.xor_self,
            Nat.xor_zero, ih ks (by simp only [List.length_cons] at h; omega)]

theorem gcmCtr_length (key j0 data : List Nat) (hk : goodKey key) (hj : goodBlock j0) :
    (gcmCtr key j0 data).length = data.length := by
  rw [gcmCtr, List.length_zipWith, keystream_length key j0 hk hj]
  omega

theorem gcmCtr_invol (key j0 pt : List Nat) (hk : goodKey key) (hj : goodBlock j0) :
    gcmCtr key j0 (gcmCtr key j0 pt) = pt := by
  have hclen : (gcmCtr key j0 pt).length = pt.length := gcmCtr_length key j0 pt hk hj
  rw [gcmCtr]
  rw [hclen]
  rw [gcmCtr]
  refine zipWith_xor_xor pt _ ?_
  rw [keystream_length key j0 hk hj]
  omega

theorem j0_good (iv : List Nat) (hiv : iv.length = 12) (hivb : ∀ b ∈ iv, b < 256) :
    goodBlock (iv ++ [0, 0, 0, 1]) := by
  constructor
  · simp [hiv]
  · intro b hb
    rcases List.mem_append.mp hb with h | h
    · exact hivb b h
    · simp only [List.mem_cons, List.not_mem_nil, or_false] at h
      omega

theorem gcmTag_length (key j0 c : List Nat) : (gcmTag key j0 c).length = 16 := by
  simp only [gcmTag]
  exact natToBytesBE_length 16 _

/-- AES-GCM with the tag-appended WebCrypto layout round-trips: decrypting
an encryption under the same key and nonce recovers the plaintext. -/
theorem gcmDecrypt_gcmEncrypt (key iv pt : List Nat) (hk : goodKey key) (hiv : iv.length = 12)
    (hivb : ∀ b ∈ iv, b < 256) :
    gcmDecrypt key iv (gcmEncrypt key iv pt) = some pt := by
  have hj : goodBlock (iv ++ [0, 0, 0, 1]) := j0_good iv hiv hivb
  simp only [gcmEncrypt, gcmDecrypt]
  rw [if_neg (by rw [List.length_append, gcmTag_length]; omega)]
  rw [List.length_append, gcmTag_length]
  rw [show (gcmCtr key (iv ++ [0, 0, 0, 1]) pt).length + 16 - 16
      = (gcmCtr key (iv ++ [0, 0, 0, 1]) pt).length from by omega]
  rw [List.take_left, List.drop_left]
  rw [if_pos rfl]
  rw [gcmCtr_invol key _ pt hk hj]

theorem encodeUtf8_lt (s : List Char) : ∀ b ∈ encodeUtf8 s, b < 256 := by
  intro b hb
  simp only [encodeUtf8, List.mem_flatMap] at hb
  obtain ⟨c, _, hc⟩ := hb
  exact encodeUtf8Char_lt c b hc

theorem gcmEncrypt_lt (key iv pt : List Nat) (hk : goodKey key)
    (hj : goodBlock (iv ++ [0, 0, 0, 1])) (hpt : ∀ b ∈ pt, b < 256) :
    ∀ b ∈ gcmEncrypt key iv pt, b < 256 := by
  intro b hb
  simp only [gcmEncrypt] at hb
  rcases List.mem_append.mp hb with h | h
  · rw [gcmCtr] at h
    exact zipWith_xor_lt pt _ hpt (keystream_lt key _ hk hj _) b h
  · simp only [gcmTag] at h
    exact natToBytesBE_lt _ _ b h

/-- C3: for every JSON-serializable payload `p` (finite amount that
survives `JSON.stringify`, i.e. `jsonSafe`) and every valid key material
(32 bytes below 256) and fresh 12-byte IV, decryption inverts encryption
under the same key: the serialize → AES-GCM → base64 pipeline of
`encryptTransaction` is undone exactly by the base64 → authenticated
decrypt → `JSON.parse` pipeline of `decryptTransaction`. -/
theorem encryptDecryptRoundTrip (p : TxPayload) (key : CryptoKeyRef) (iv : List Nat)
    (hsafe : p.amount.jsonSafe = true) (hk : goodKey key.keyBytes)
    (hiv : iv.length = 12) (hivb : ∀ b ∈ iv, b < 256) :
    decryptTransaction (encryptTransaction p key iv).encrypted_data
      (encryptTransaction p key iv).iv key = some p := by
  have hct : ∀ b ∈ gcmEncrypt key.keyBytes iv (encodeUtf8 (printPayload p)), b < 256 :=
    gcmEncrypt_lt _ _ _ hk (j0_good iv hiv hivb) (encodeUtf8_lt _)
  simp only [encryptTransaction, decryptTransaction, encrypt, decrypt,
    arrayBufferToBase64, base64ToArrayBuffer]
  rw [atobB_btoaB _ hct]
  simp only [Option.bind_eq_bind, Option.some_bind]
  rw [atobB_btoaB iv hivb]
  simp only [Option.some_bind]
  rw [gcmDecrypt_gcmEncrypt key.keyBytes iv _ hk hiv hivb]
  simp only [Option.some_bind]
  rw [decodeUtf8_encodeUtf8]
  simp only [Option.some_bind]
  exact parsePayloadJson_printPayload p hsafe

theorem encryptDecryptRoundTrip_witness :
    ((TxPayload.mk (JsNum.dec false 425 1) (some ("lunch".toList)) none).amount.jsonSafe = true ∧
      goodKey (CryptoKeyRef.mk (List.range 32) false).keyBytes ∧
      (List.range 12).length = 12 ∧ (∀ b ∈ List.range 12, b < 256)) ∧
    decryptTransaction
      (encryptTransaction (TxPayload.mk (JsNum.dec false 425 1) (some ("lunch".toList)) none)
        (CryptoKeyRef.mk (List.range 32) false) (List.range 12)).encrypted_data
      (encryptTransaction (TxPayload.mk (JsNum.dec false 425 1) (some ("lunch".toList)) none)
        (CryptoKeyRef.mk (List.range 32) false) (List.range 12)).iv
      (CryptoKeyRef.mk (List.range 32) false) =
      some (TxPayload.mk (JsNum.dec false 425 1) (some ("lunch".toList)) none) :=
  ⟨⟨by decide, ⟨by decide, by decide⟩, by decide, by decide⟩,
    encryptDecryptRoundTrip (TxPayload.mk (JsNum.dec false 425 1) (some ("lunch".toList)) none)
      (CryptoKeyRef.mk (List.range 32) false) (List.range 12)
      (by decide) ⟨by decide, by decide⟩ (by decide) (by decide)⟩

end Finsulium
